import Mathlib

/-!
Verification of the cc-switch provider switchboard
(`src/server/database/db.js` and the cc-switch route module).

The database tables are modelled as Lean lists of rows; SQL statements become
list transformations translated statement-by-statement from the source.
-/

set_option maxRecDepth 4000

namespace CCSwitch

/-- A row of the `cc_providers` table (see `init.sql` / `db.js`).
`settings_config` is stored as its serialized string, as in the database. -/
structure ProviderRow where
  id : String
  name : String
  app_type : String
  settings_config : String
  website_url : Option String
  category : String
  notes : Option String
  icon : Option String
  icon_color : String
  is_current : Bool
  sort_index : Int
  deriving Repr, DecidableEq

/-- The argument object accepted by `ccProvidersDb.upsert` in `db.js`:
destructured fields, with `app_type = 'claude'` as the default and the
other defaults applied inside `upsert` itself. -/
structure ProviderArg where
  id : String
  name : String
  app_type : Option String
  settings_config : String
  website_url : Option String
  category : Option String
  notes : Option String
  icon : Option String
  icon_color : Option String
  is_current : Bool
  sort_index : Option Int
  deriving Repr, DecidableEq

/-- The `cc_providers` table. -/
abbrev ProvidersTable := List ProviderRow

namespace ccProvidersDb

/-- The row produced by the VALUES clause of the upsert INSERT in `db.js`:
`stmt.run(id, name, app_type, configStr, website_url || null,
category || 'custom', notes || null, icon || null, icon_color || '#6366f1',
is_current ? 1 : 0, sort_index || 0)`. -/
def insertedRow (p : ProviderArg) : ProviderRow :=
  { id := p.id
    name := p.name
    app_type := p.app_type.getD "claude"
    settings_config := p.settings_config
    website_url := p.website_url
    category := p.category.getD "custom"
    notes := p.notes
    icon := p.icon
    icon_color := p.icon_color.getD "#6366f1"
    is_current := p.is_current
    sort_index := p.sort_index.getD 0 }

/-- The `ON CONFLICT(id) DO UPDATE SET` clause of the upsert in `db.js`:
every column except `id`, `app_type` and `created_at` is overwritten with
the excluded (incoming) value — including `is_current`. -/
def conflictUpdate (old : ProviderRow) (p : ProviderArg) : ProviderRow :=
  let new := insertedRow p
  { new with app_type := old.app_type }

/-- `ccProvidersDb.upsert` (`db.js` lines 409-434): INSERT OR, on an `id`
conflict, update the existing row in place. -/
def upsert (p : ProviderArg) (s : ProvidersTable) : ProvidersTable :=
  if s.any (fun r => r.id = p.id) then
    s.map (fun r => if r.id = p.id then conflictUpdate r p else r)
  else
    s ++ [insertedRow p]

/-- `ccProvidersDb.delete` (`db.js`): `DELETE FROM cc_providers WHERE id = ?`. -/
def deleteById (id : String) (s : ProvidersTable) : ProvidersTable :=
  s.filter (fun r => r.id ≠ id)

/-- `ccProvidersDb.switchTo` (`db.js` lines 448-460): inside one transaction,
`UPDATE cc_providers SET is_current = 0 WHERE app_type = ?` followed by
`UPDATE cc_providers SET is_current = 1 WHERE id = ? AND app_type = ?`.
The function never inspects whether the second UPDATE matched a row;
it returns `true` unconditionally. -/
def switchTo (id : String) (appType : String) (s : ProvidersTable) : ProvidersTable :=
  let cleared := s.map (fun r =>
    if r.app_type = appType then { r with is_current := false } else r)
  cleared.map (fun r =>
    if r.id = id ∧ r.app_type = appType then { r with is_current := true } else r)

/-- `ccProvidersDb.getById`: `SELECT * FROM cc_providers WHERE id = ?`. -/
def getById (id : String) (s : ProvidersTable) : Option ProviderRow :=
  s.find? (fun r => r.id = id)

end ccProvidersDb

/-- The providers of `appType` whose `is_current` flag is set. -/
def currentsOf (appType : String) (s : ProvidersTable) : List ProviderRow :=
  s.filter (fun r => r.app_type = appType ∧ r.is_current)

/-- Number of current providers of an app type. -/
def currentCount (appType : String) (s : ProvidersTable) : Nat :=
  (currentsOf appType s).length

/-- A row of the `cc_prompts` table. -/
structure PromptRow where
  id : String
  app_type : String
  name : String
  content : String
  description : Option String
  is_enabled : Bool
  sort_index : Int
  deriving Repr, DecidableEq

/-- The `cc_prompts` table. -/
abbrev PromptsTable := List PromptRow

namespace ccPromptsDb

/-- `ccPromptsDb.enable` (`db.js` lines 547-557): inside one transaction,
`UPDATE cc_prompts SET is_enabled = 0 WHERE app_type = ?` followed by
`UPDATE cc_prompts SET is_enabled = 1 WHERE id = ?`. Note that the second
UPDATE carries no `app_type` condition. -/
def enable (id : String) (appType : String) (s : PromptsTable) : PromptsTable :=
  let cleared := s.map (fun r =>
    if r.app_type = appType then { r with is_enabled := false } else r)
  cleared.map (fun r =>
    if r.id = id then { r with is_enabled := true } else r)

end ccPromptsDb

/-- The prompts of `appType` whose `is_enabled` flag is set. -/
def enabledOf (appType : String) (s : PromptsTable) : List PromptRow :=
  s.filter (fun r => r.app_type = appType ∧ r.is_enabled)

/-- Outcome of the switch route, as far as error signalling is concerned. -/
inductive SwitchResponse where
  | notFound
  | ok
  deriving Repr, DecidableEq

/-- `router.post('/providers/:id/switch')` (route module lines 254-285),
restricted to its effect on the provider table: look the id up with
`ccProvidersDb.getById(id)` (no `app_type` condition), answer 404 and leave
the table untouched when absent, otherwise run `ccProvidersDb.switchTo`. -/
def switchRoute (id : String) (appType : String) (s : ProvidersTable) :
    SwitchResponse × ProvidersTable :=
  match ccProvidersDb.getById id s with
  | none => (SwitchResponse.notFound, s)
  | some _ => (SwitchResponse.ok, ccProvidersDb.switchTo id appType s)

/-- A store operation on the provider table, for stating invariants over
sequences of calls. -/
inductive StoreOp where
  | upsert (p : ProviderArg)
  | switchTo (id appType : String)
  | deleteById (id : String)
  deriving Repr

/-- Apply one store operation. -/
def applyOp (s : ProvidersTable) : StoreOp → ProvidersTable
  | StoreOp.upsert p => ccProvidersDb.upsert p s
  | StoreOp.switchTo id a => ccProvidersDb.switchTo id a s
  | StoreOp.deleteById id => ccProvidersDb.deleteById id s

/-- Apply a sequence of store operations, oldest first. -/
def applyOps (s : ProvidersTable) (ops : List StoreOp) : ProvidersTable :=
  ops.foldl applyOp s

/-- At most one current provider per app type. -/
def AtMostOneCurrent (s : ProvidersTable) : Prop :=
  ∀ a : String, currentCount a s ≤ 1

/-- The table's primary-key discipline: row ids are pairwise distinct. -/
def NodupIds (s : ProvidersTable) : Prop :=
  (s.map ProviderRow.id).Nodup

/-- The combined per-row effect of the two UPDATE statements of `switchTo`. -/
def switchFlag (id appType : String) (r : ProviderRow) : ProviderRow :=
  if r.app_type = appType then { r with is_current := decide (r.id = id) } else r

theorem switchTo_eq_map (id appType : String) (s : ProvidersTable) :
    ccProvidersDb.switchTo id appType s = s.map (switchFlag id appType) := by
  unfold ccProvidersDb.switchTo
  rw [List.map_map]
  apply List.map_congr_left
  intro r _
  by_cases h1 : r.app_type = appType
  · by_cases h2 : r.id = id <;>
      simp [Function.comp, switchFlag, h1, h2]
  · simp [Function.comp, switchFlag, h1]

theorem currentsOf_switchTo_self (id appType : String) (s : ProvidersTable) :
    currentsOf appType (ccProvidersDb.switchTo id appType s) =
      (s.filter (fun r => r.id = id ∧ r.app_type = appType)).map
        (fun r => { r with is_current := true }) := by
  rw [switchTo_eq_map]
  induction s with
  | nil => rfl
  | cons r t ih =>
    by_cases h1 : r.app_type = appType
    · by_cases h2 : r.id = id <;>
        simp [currentsOf, switchFlag, h1, h2, List.filter_cons, List.map_cons] <;>
        simpa [currentsOf] using ih
    · simp [currentsOf, switchFlag, h1, List.filter_cons]
      simpa [currentsOf] using ih

theorem currentsOf_switchTo_other (id appType b : String) (hb : b ≠ appType)
    (s : ProvidersTable) :
    currentsOf b (ccProvidersDb.switchTo id appType s) = currentsOf b s := by
  rw [switchTo_eq_map]
  induction s with
  | nil => rfl
  | cons r t ih =>
    by_cases h1 : r.app_type = appType
    · by_cases h2 : r.id = id <;>
        simp [currentsOf, switchFlag, h1, h2, List.filter_cons, hb.symm, h1 ▸ hb] <;>
        simpa [currentsOf] using ih
    · simp [currentsOf, switchFlag, h1, List.filter_cons]
      by_cases h3 : r.app_type = b ∧ r.is_current <;>
        simp [h3] <;> simpa [currentsOf] using ih

theorem length_filter_imp_le {α : Type} (p q : α → Bool)
    (h : ∀ a, p a = true → q a = true) (l : List α) :
    (l.filter p).length ≤ (l.filter q).length := by
  induction l with
  | nil => simp
  | cons x t ih =>
    by_cases hp : p x = true
    · simp [List.filter_cons, hp, h x hp]
      omega
    · simp only [List.filter_cons, hp]
      by_cases hq : q x = true <;> simp [hq] <;> omega

theorem filter_id_le_one (s : ProvidersTable) (h : NodupIds s)
    (id appType : String) :
    (s.filter (fun r => r.id = id ∧ r.app_type = appType)).length ≤ 1 := by
  induction s with
  | nil => simp
  | cons r t ih =>
    simp only [NodupIds, List.map_cons, List.nodup_cons] at h
    by_cases hp : r.id = id ∧ r.app_type = appType
    · have ht : t.filter (fun x => x.id = id ∧ x.app_type = appType) = [] := by
        rw [List.filter_eq_nil_iff]
        intro x hx hpred
        simp only [decide_eq_true_eq] at hpred
        have hmem : x.id ∈ t.map ProviderRow.id :=
          List.mem_map_of_mem ProviderRow.id hx
        rw [hpred.1] at hmem
        have h1 := h.1
        rw [hp.1] at h1
        exact h1 hmem
      have hp' : decide (r.id = id ∧ r.app_type = appType) = true := by
        simpa using hp
      simp only [List.filter_cons, hp', if_true]
      rw [ht]
      simp
    · simp only [List.filter_cons, decide_eq_true_eq, hp, if_neg]
      exact ih h.2

theorem filter_id_of_mem (s : ProvidersTable) (h : NodupIds s)
    (r : ProviderRow) (hr : r ∈ s) (id appType : String)
    (hid : r.id = id) (ha : r.app_type = appType) :
    s.filter (fun x => x.id = id ∧ x.app_type = appType) = [r] := by
  induction s with
  | nil => cases hr
  | cons x t ih =>
    simp only [NodupIds, List.map_cons, List.nodup_cons] at h
    rcases List.mem_cons.mp hr with rfl | hrt
    · have ht : t.filter (fun y => y.id = id ∧ y.app_type = appType) = [] := by
        rw [List.filter_eq_nil_iff]
        intro y hy hpred
        simp only [decide_eq_true_eq] at hpred
        have hmem : y.id ∈ t.map ProviderRow.id :=
          List.mem_map_of_mem ProviderRow.id hy
        rw [hpred.1] at hmem
        have h1 := h.1
        rw [hid] at h1
        exact h1 hmem
      have hp' : decide (r.id = id ∧ r.app_type = appType) = true := by
        simp [hid, ha]
      simp only [List.filter_cons, hp', if_true]
      rw [ht]
    · have hx : ¬ (x.id = id ∧ x.app_type = appType) := by
        rintro ⟨hxid, -⟩
        have hmem : r.id ∈ t.map ProviderRow.id :=
          List.mem_map_of_mem ProviderRow.id hrt
        rw [hid, ← hxid] at hmem
        exact h.1 hmem
      simp only [List.filter_cons, decide_eq_true_eq, hx, if_neg]
      exact ih h.2 hrt

theorem nodupIds_switchTo (id appType : String) (s : ProvidersTable)
    (h : NodupIds s) : NodupIds (ccProvidersDb.switchTo id appType s) := by
  have hids : (ccProvidersDb.switchTo id appType s).map ProviderRow.id
      = s.map ProviderRow.id := by
    rw [switchTo_eq_map, List.map_map]
    apply List.map_congr_left
    intro r _
    by_cases h1 : r.app_type = appType <;> simp [Function.comp, switchFlag, h1]
  unfold NodupIds
  rw [hids]
  exact h

theorem nodupIds_deleteById (id : String) (s : ProvidersTable)
    (h : NodupIds s) : NodupIds (ccProvidersDb.deleteById id s) := by
  unfold NodupIds ccProvidersDb.deleteById
  exact ((List.filter_sublist s).map ProviderRow.id).nodup h

theorem length_filter_filter_le {α : Type} (p q : α → Bool) (l : List α) :
    ((l.filter p).filter q).length ≤ (l.filter q).length := by
  induction l with
  | nil => simp
  | cons x t ih =>
    by_cases hp : p x = true <;> by_cases hq : q x = true <;>
      simp [List.filter_cons, hp, hq, -List.filter_filter] <;> omega

/-- Whether a store operation is an upsert. -/
def StoreOp.isUpsert : StoreOp → Bool
  | StoreOp.upsert _ => true
  | _ => false

theorem currentCount_switchTo_le (id appType a : String) (s : ProvidersTable)
    (h1 : NodupIds s) (h2 : AtMostOneCurrent s) :
    currentCount a (ccProvidersDb.switchTo id appType s) ≤ 1 := by
  by_cases ha : a = appType
  · subst ha
    rw [currentCount, currentsOf_switchTo_self, List.length_map]
    exact filter_id_le_one s h1 id a
  · rw [currentCount, currentsOf_switchTo_other id appType a ha]
    exact h2 a

theorem invariants_applyOp (s : ProvidersTable) (op : StoreOp)
    (hop : op.isUpsert = false) (h1 : NodupIds s) (h2 : AtMostOneCurrent s) :
    NodupIds (applyOp s op) ∧ AtMostOneCurrent (applyOp s op) := by
  cases op with
  | upsert p => simp [StoreOp.isUpsert] at hop
  | switchTo id a =>
    refine ⟨nodupIds_switchTo id a s h1, fun b => ?_⟩
    exact currentCount_switchTo_le id a b s h1 h2
  | deleteById id =>
    refine ⟨nodupIds_deleteById id s h1, fun b => ?_⟩
    calc currentCount b (applyOp s (StoreOp.deleteById id))
        ≤ currentCount b s := by
          unfold currentCount currentsOf applyOp ccProvidersDb.deleteById
          exact length_filter_filter_le _ _ s
      _ ≤ 1 := h2 b

theorem invariants_applyOps (ops : List StoreOp)
    (hops : ∀ op ∈ ops, op.isUpsert = false) (s : ProvidersTable)
    (h1 : NodupIds s) (h2 : AtMostOneCurrent s) :
    NodupIds (applyOps s ops) ∧ AtMostOneCurrent (applyOps s ops) := by
  induction ops generalizing s with
  | nil => exact ⟨h1, h2⟩
  | cons op rest ih =>
    have hstep := invariants_applyOp s op (hops op (List.mem_cons_self op rest))
      h1 h2
    exact ih (fun o ho => hops o (List.mem_cons_of_mem op ho))
      (applyOp s op) hstep.1 hstep.2

/-- Bridge: if the whole table holds at most one current row, then every
app type holds at most one current row. -/
theorem atMostOne_of_filter_le (s : ProvidersTable)
    (h : (s.filter (fun r => r.is_current)).length ≤ 1) :
    AtMostOneCurrent s := by
  intro a
  calc currentCount a s
      ≤ (s.filter (fun r => r.is_current)).length := by
        apply length_filter_imp_le
        intro r hr
        simp only [decide_eq_true_eq] at hr
        simp [hr.2]
    _ ≤ 1 := h

/-- When no row carries the requested id and app type, `switchTo` leaves
zero current providers of that app type. -/
theorem currentsOf_switchTo_of_absent (id a : String) (s : ProvidersTable)
    (h : ∀ r ∈ s, ¬(r.id = id ∧ r.app_type = a)) :
    currentsOf a (ccProvidersDb.switchTo id a s) = [] := by
  rw [currentsOf_switchTo_self]
  have hf : s.filter (fun x => x.id = id ∧ x.app_type = a) = [] := by
    rw [List.filter_eq_nil_iff]
    intro x hx hpred
    simp only [decide_eq_true_eq] at hpred
    exact h x hx hpred
  rw [hf]
  rfl

/-- A concrete provider row, for concrete scenarios. -/
def exRow (id appType : String) (cur : Bool) : ProviderRow :=
  { id := id, name := id, app_type := appType, settings_config := "{}",
    website_url := none, category := "custom", notes := none, icon := none,
    icon_color := "#6366f1", is_current := cur, sort_index := 0 }

/-- A concrete upsert argument, for concrete scenarios. -/
def exArg (id appType : String) (cur : Bool) : ProviderArg :=
  { id := id, name := id, app_type := some appType, settings_config := "{}",
    website_url := none, category := none, notes := none, icon := none,
    icon_color := none, is_current := cur, sort_index := none }

/-- C1, refuted as stated: (a) a sequence of `upsert` calls carrying
`is_current = true` leaves two current providers of `app_type = claude`,
so "at most one after any sequence of store operations" fails; (b) from a
state with one current claude provider, `switchTo` with an id that does not
exist leaves zero current claude providers, so "after each call exactly one
Provider of that app_type has is_current = true" fails. -/
theorem single_current_claim_counterexample :
    currentCount "claude"
        (applyOps [] [StoreOp.upsert (exArg "p1" "claude" true),
                      StoreOp.upsert (exArg "p2" "claude" true)]) = 2
    ∧ currentsOf "claude"
        (ccProvidersDb.switchTo "ghost" "claude" [exRow "p1" "claude" true]) = []
    := by
  constructor <;> decide

/-- C1 (amended): starting from a table with distinct ids and at most one
current provider per app type, (a) every sequence of `switchTo` and `delete`
calls preserves "at most one current provider per app type"; (b) a
`switchTo(id, a)` call leaves exactly one current provider of `a` — the row
with that id — when a row with that id and app type exists; (c) it leaves
zero current providers of `a` when no such row exists; (d) it never touches
the current flags of other app types. (`upsert` is excluded: it writes the
caller-supplied `is_current` flag and can break the invariant.) -/
theorem single_current_invariant (s : ProvidersTable)
    (h1 : NodupIds s) (h2 : AtMostOneCurrent s) :
    (∀ ops : List StoreOp, (∀ op ∈ ops, op.isUpsert = false) →
      AtMostOneCurrent (applyOps s ops))
    ∧ (∀ id a, (∃ r ∈ s, r.id = id ∧ r.app_type = a) →
      (currentsOf a (ccProvidersDb.switchTo id a s)).map ProviderRow.id = [id])
    ∧ (∀ id a, (∀ r ∈ s, ¬(r.id = id ∧ r.app_type = a)) →
      currentsOf a (ccProvidersDb.switchTo id a s) = [])
    ∧ (∀ id a b, b ≠ a →
      currentsOf b (ccProvidersDb.switchTo id a s) = currentsOf b s) := by
  refine ⟨fun ops hops => (invariants_applyOps ops hops s h1 h2).2,
    fun id a h => ?_, fun id a h => ?_, fun id a b hb =>
      currentsOf_switchTo_other id a b hb s⟩
  · obtain ⟨r, hr, hrid, hra⟩ := h
    rw [currentsOf_switchTo_self,
      filter_id_of_mem s h1 r hr id a hrid hra]
    simp [hrid]
  · exact currentsOf_switchTo_of_absent id a s h

/-- Witness for `single_current_invariant` at a concrete two-row table. -/
theorem single_current_invariant_witness :
    (currentsOf "claude"
      (ccProvidersDb.switchTo "p2" "claude"
        [exRow "p1" "claude" true, exRow "p2" "claude" false])).map
      ProviderRow.id = ["p2"] :=
  (single_current_invariant
      [exRow "p1" "claude" true, exRow "p2" "claude" false]
      (by unfold NodupIds; decide)
      (atMostOne_of_filter_le _ (by decide))).2.1 "p2" "claude"
    ⟨exRow "p2" "claude" false, by decide, by decide, by decide⟩

/-- C2, refuted as stated: with a current claude provider `p1` and a codex
provider `p2`, the switch route called with `p2`'s id and `app = claude`
does not answer NotFound (the route looks the id up without an app-type
condition), and it clears `p1`'s flag while setting none: the is_current
flags are not "exactly as they were". -/
theorem switchTo_notfound_claim_counterexample :
    (switchRoute "p2" "claude"
        [exRow "p1" "claude" true, exRow "p2" "codex" false]).fst
      = SwitchResponse.ok
    ∧ SwitchResponse.ok ≠ SwitchResponse.notFound
    ∧ currentsOf "claude"
        (switchRoute "p2" "claude"
          [exRow "p1" "claude" true, exRow "p2" "codex" false]).snd = []
    ∧ currentsOf "claude" [exRow "p1" "claude" true, exRow "p2" "codex" false]
        = [exRow "p1" "claude" true] := by
  refine ⟨by decide, by decide, by decide, by decide⟩

/-- C2 (amended): the switch route answers NotFound exactly when no provider
with that id exists at all (the lookup ignores `app_type`); a NotFound call
leaves the table — hence every `is_current` flag — untouched; and when the
id exists only with a different app type, the call answers ok and leaves
zero current providers of the requested app type. -/
theorem switchRoute_notFound_behavior (id a : String) (s : ProvidersTable) :
    ((switchRoute id a s).fst = SwitchResponse.notFound
      ↔ ccProvidersDb.getById id s = none)
    ∧ (ccProvidersDb.getById id s = none → (switchRoute id a s).snd = s)
    ∧ ((∀ r ∈ s, r.id = id → r.app_type ≠ a) →
        (switchRoute id a s).fst ≠ SwitchResponse.notFound →
        (switchRoute id a s).fst = SwitchResponse.ok
        ∧ currentsOf a (switchRoute id a s).snd = []) := by
  unfold switchRoute
  cases hfind : ccProvidersDb.getById id s with
  | none =>
    refine ⟨by simp, fun _ => rfl, fun _ hne => absurd rfl hne⟩
  | some r =>
    refine ⟨by simp, fun hnone => by simp at hnone, fun hmis _ => ?_⟩
    refine ⟨rfl, ?_⟩
    apply currentsOf_switchTo_of_absent
    intro x hx
    rintro ⟨hxid, hxa⟩
    exact hmis x hx hxid hxa

/-- Witness for `switchRoute_notFound_behavior`: a call with an absent id
leaves the table untouched, and a call with a mismatched app type answers ok
with zero current claude providers. -/
theorem switchRoute_notFound_behavior_witness :
    (switchRoute "ghost" "claude" [exRow "p1" "claude" true]).snd
        = [exRow "p1" "claude" true]
    ∧ currentsOf "claude"
        (switchRoute "p2" "claude" [exRow "p2" "codex" false]).snd = [] :=
  ⟨(switchRoute_notFound_behavior "ghost" "claude"
      [exRow "p1" "claude" true]).2.1 (by decide),
   ((switchRoute_notFound_behavior "p2" "claude"
      [exRow "p2" "codex" false]).2.2 (by decide) (by decide)).2⟩

theorem conflictUpdate_id (old : ProviderRow) (p : ProviderArg) :
    (ccProvidersDb.conflictUpdate old p).id = p.id := rfl

theorem filter_ne_map_replace (p : ProviderArg) (s : ProvidersTable) :
    ((s.map (fun r => if r.id = p.id then ccProvidersDb.conflictUpdate r p
        else r)).filter (fun r => r.id ≠ p.id))
      = s.filter (fun r => r.id ≠ p.id) := by
  induction s with
  | nil => rfl
  | cons r t ih =>
    by_cases h : r.id = p.id
    · simp only [List.map_cons, if_pos h, List.filter_cons]
      rw [if_neg (by simp [conflictUpdate_id]), if_neg (by simp [h])]
      exact ih
    · simp only [List.map_cons, if_neg h, List.filter_cons]
      rw [if_pos (by simp [h]), if_pos (by simp [h])]
      rw [ih]

/-- C3, refuted as stated: with `p1` the current claude provider, an upsert
of `p1` whose argument carries `is_current = false` (the value JS produces
for an absent field) clears the flag: the set of current providers is not
identical before and after. -/
theorem upsert_frame_claim_counterexample :
    currentsOf "claude" [exRow "p1" "claude" true] = [exRow "p1" "claude" true]
    ∧ currentsOf "claude"
        (ccProvidersDb.upsert (exArg "p1" "claude" false)
          [exRow "p1" "claude" true]) = [] := by
  refine ⟨by decide, by decide⟩

/-- C3 (amended): `upsert(provider)` inserts or replaces the row keyed by
`provider.id` and leaves every other row — hence its `is_current` flag —
unchanged, but it does write the target row's `is_current`: after the call
the row with that id carries exactly the caller-supplied flag, the row being
the freshly inserted one or the full replacement that keeps only the old
`app_type`. -/
theorem upsert_writes_is_current (p : ProviderArg) (s : ProvidersTable) :
    ((ccProvidersDb.upsert p s).filter (fun r => r.id ≠ p.id)
        = s.filter (fun r => r.id ≠ p.id))
    ∧ (∃ r ∈ ccProvidersDb.upsert p s, r.id = p.id)
    ∧ (∀ r ∈ ccProvidersDb.upsert p s, r.id = p.id →
        r.is_current = p.is_current
        ∧ (r = ccProvidersDb.insertedRow p
           ∨ ∃ old ∈ s, old.id = p.id ∧ r = ccProvidersDb.conflictUpdate old p)) := by
  unfold ccProvidersDb.upsert
  by_cases hany : s.any (fun r => r.id = p.id) = true
  · rw [if_pos hany]
    refine ⟨filter_ne_map_replace p s, ?_, ?_⟩
    · rw [List.any_eq_true] at hany
      obtain ⟨r, hr, hrid⟩ := hany
      simp only [decide_eq_true_eq] at hrid
      exact ⟨ccProvidersDb.conflictUpdate r p,
        by
          rw [List.mem_map]
          exact ⟨r, hr, by rw [if_pos hrid]⟩,
        conflictUpdate_id r p⟩
    · intro r hr hrid
      rw [List.mem_map] at hr
      obtain ⟨x, hx, hxr⟩ := hr
      by_cases h : x.id = p.id
      · rw [if_pos h] at hxr
        subst hxr
        exact ⟨rfl, Or.inr ⟨x, hx, h, rfl⟩⟩
      · rw [if_neg h] at hxr
        subst hxr
        exact absurd hrid h
  · rw [if_neg hany]
    have habs : ∀ r ∈ s, ¬(r.id = p.id) := by
      intro r hr
      rw [Bool.not_eq_true, List.any_eq_false] at hany
      have := hany r hr
      simpa using this
    refine ⟨?_, ?_, ?_⟩
    · rw [List.filter_append]
      have : ([ccProvidersDb.insertedRow p].filter
          (fun r => r.id ≠ p.id)) = [] := by
        simp [ccProvidersDb.insertedRow]
      rw [this, List.append_nil]
    · exact ⟨ccProvidersDb.insertedRow p,
        List.mem_append_right s (List.mem_singleton.mpr rfl), rfl⟩
    · intro r hr hrid
      rcases List.mem_append.mp hr with hrs | hrnew
      · exact absurd hrid (habs r hrs)
      · rw [List.mem_singleton] at hrnew
        subst hrnew
        exact ⟨rfl, Or.inl rfl⟩

/-- Witness for `upsert_writes_is_current` at a concrete one-row table. -/
theorem upsert_writes_is_current_witness :
    ∃ r ∈ ccProvidersDb.upsert (exArg "p1" "claude" false)
      [exRow "p1" "claude" true], r.id = "p1" :=
  (upsert_writes_is_current (exArg "p1" "claude" false)
    [exRow "p1" "claude" true]).2.1

theorem length_filter_le_one_of_key {α : Type} (key : α → String) (k : String)
    (p : α → Bool) (hp : ∀ x, p x = true → key x = k) (l : List α)
    (h : (l.map key).Nodup) : (l.filter p).length ≤ 1 := by
  induction l with
  | nil => simp
  | cons x t ih =>
    simp only [List.map_cons, List.nodup_cons] at h
    by_cases hx : p x = true
    · have ht : t.filter p = [] := by
        rw [List.filter_eq_nil_iff]
        intro y hy hpy
        have hmem : key y ∈ t.map key := List.mem_map_of_mem key hy
        rw [hp y hpy] at hmem
        have h1 := h.1
        rw [hp x hx] at h1
        exact h1 hmem
      simp only [List.filter_cons, hx, if_true]
      rw [ht]
      simp
    · simp only [List.filter_cons, hx, if_false]
      exact ih h.2

theorem filter_eq_singleton_of_key {α : Type} (key : α → String)
    (p : α → Bool) (r : α) (l : List α) (h : (l.map key).Nodup)
    (hr : r ∈ l) (hpr : p r = true)
    (hp : ∀ x, p x = true → key x = key r) :
    l.filter p = [r] := by
  induction l with
  | nil => cases hr
  | cons x t ih =>
    simp only [List.map_cons, List.nodup_cons] at h
    rcases List.mem_cons.mp hr with rfl | hrt
    · have ht : t.filter p = [] := by
        rw [List.filter_eq_nil_iff]
        intro y hy hpy
        have hmem : key y ∈ t.map key := List.mem_map_of_mem key hy
        rw [hp y hpy] at hmem
        exact h.1 hmem
      simp only [List.filter_cons, hpr, if_true]
      rw [ht]
    · have hx : p x ≠ true := by
        intro hpx
        have hmem : key r ∈ t.map key := List.mem_map_of_mem key hrt
        rw [← hp x hpx] at hmem
        exact h.1 hmem
      simp only [List.filter_cons, hx, if_false]
      exact ih h.2 hrt

/-- The combined per-row effect of the two UPDATE statements of
`ccPromptsDb.enable`: a matching id is set enabled regardless of its app
type; otherwise a row of the requested app type is cleared. -/
def enableFlag (id appType : String) (r : PromptRow) : PromptRow :=
  if r.id = id then { r with is_enabled := true }
  else if r.app_type = appType then { r with is_enabled := false }
  else r

theorem enable_eq_map (id appType : String) (s : PromptsTable) :
    ccPromptsDb.enable id appType s = s.map (enableFlag id appType) := by
  unfold ccPromptsDb.enable
  rw [List.map_map]
  apply List.map_congr_left
  intro r _
  by_cases h1 : r.app_type = appType
  · by_cases h2 : r.id = id <;>
      simp [Function.comp, enableFlag, h1, h2]
  · by_cases h2 : r.id = id <;>
      simp [Function.comp, enableFlag, h1, h2]

theorem enabledOf_enable_self (id appType : String) (s : PromptsTable) :
    enabledOf appType (ccPromptsDb.enable id appType s) =
      (s.filter (fun r => r.id = id ∧ r.app_type = appType)).map
        (fun r => { r with is_enabled := true }) := by
  rw [enable_eq_map]
  unfold enabledOf
  rw [List.filter_map]
  have h1 : s.filter ((fun r : PromptRow =>
        decide (r.app_type = appType ∧ r.is_enabled = true))
        ∘ enableFlag id appType)
      = s.filter (fun r : PromptRow =>
        decide (r.id = id ∧ r.app_type = appType)) := by
    apply List.filter_congr
    intro r _
    by_cases h2 : r.id = id <;> by_cases h3 : r.app_type = appType <;>
      simp [Function.comp, enableFlag, h2, h3]
  rw [h1]
  apply List.map_congr_left
  intro r hr
  rw [List.mem_filter] at hr
  have h2 : r.id = id := by
    have h3 := hr.2
    simp only [decide_eq_true_eq] at h3
    exact h3.1
  unfold enableFlag
  rw [if_pos h2]

theorem enabledOf_enable_other (id appType b : String) (hb : b ≠ appType)
    (s : PromptsTable) (hmatch : ∀ r ∈ s, r.id = id → r.app_type = appType) :
    enabledOf b (ccPromptsDb.enable id appType s) = enabledOf b s := by
  rw [enable_eq_map]
  unfold enabledOf
  rw [List.filter_map]
  have h1 : s.filter ((fun r : PromptRow =>
        decide (r.app_type = b ∧ r.is_enabled = true))
        ∘ enableFlag id appType)
      = s.filter (fun r : PromptRow =>
        decide (r.app_type = b ∧ r.is_enabled = true)) := by
    apply List.filter_congr
    intro r hr
    by_cases h2 : r.id = id
    · have ha := hmatch r hr h2
      have hnb : ¬(r.app_type = b) := by
        rw [ha]
        exact fun hc => hb hc.symm
      simp only [Function.comp, enableFlag, h2, if_true, ha, decide_eq_decide]
      constructor
      · rintro ⟨hc, -⟩
        exact absurd hc.symm hb
      · rintro ⟨hc, -⟩
        exact absurd (ha ▸ hc) hnb
    · by_cases h3 : r.app_type = appType
      · have hnb : ¬(r.app_type = b) := by
          rw [h3]
          exact fun hc => hb hc.symm
        simp only [Function.comp, enableFlag, h2, if_false, h3, if_true,
          decide_eq_decide]
        constructor
        · rintro ⟨hc, -⟩
          exact absurd hc.symm hb
        · rintro ⟨hc, -⟩
          exact absurd (h3 ▸ hc) hnb
      · simp [Function.comp, enableFlag, h2, h3]
  rw [h1]
  have h2 : ∀ r ∈ s.filter (fun r : PromptRow =>
      decide (r.app_type = b ∧ r.is_enabled = true)),
      enableFlag id appType r = r := by
    intro r hr
    rw [List.mem_filter] at hr
    have h3 := hr.2
    simp only [decide_eq_true_eq] at h3
    have h4 : ¬(r.id = id) := fun hc => by
      have h5 := hmatch r hr.1 hc
      rw [h5] at h3
      exact hb h3.1.symm
    have h6 : ¬(r.app_type = appType) := fun hc => by
      rw [hc] at h3
      exact hb h3.1.symm
    unfold enableFlag
    rw [if_neg h4, if_neg h6]
  rw [List.map_congr_left h2, List.map_id']

theorem enableFlag_id (id appType : String) (r : PromptRow) :
    (enableFlag id appType r).id = r.id := by
  unfold enableFlag
  by_cases h1 : r.id = id <;> by_cases h2 : r.app_type = appType <;>
    simp [h1, h2]

theorem enableFlag_app_type (id appType : String) (r : PromptRow) :
    (enableFlag id appType r).app_type = r.app_type := by
  unfold enableFlag
  by_cases h1 : r.id = id <;> by_cases h2 : r.app_type = appType <;>
    simp [h1, h2]

theorem mem_enable (id appType : String) (s : PromptsTable) (r : PromptRow)
    (hr : r ∈ ccPromptsDb.enable id appType s) :
    ∃ r0 ∈ s, r.id = r0.id ∧ r.app_type = r0.app_type := by
  rw [enable_eq_map, List.mem_map] at hr
  obtain ⟨r0, hr0, hfr⟩ := hr
  exact ⟨r0, hr0, by rw [← hfr, enableFlag_id], by rw [← hfr, enableFlag_app_type]⟩

theorem enable_map_id (id appType : String) (s : PromptsTable) :
    (ccPromptsDb.enable id appType s).map PromptRow.id = s.map PromptRow.id := by
  rw [enable_eq_map, List.map_map]
  apply List.map_congr_left
  intro r _
  exact enableFlag_id id appType r

/-- At most one enabled prompt per app type. -/
def AtMostOneEnabled (s : PromptsTable) : Prop :=
  ∀ a : String, (enabledOf a s).length ≤ 1

/-- Bridge: if the whole prompt table holds at most one enabled row, then
every app type holds at most one enabled row. -/
theorem atMostOneEnabled_of_filter_le (s : PromptsTable)
    (h : (s.filter (fun r => r.is_enabled)).length ≤ 1) :
    AtMostOneEnabled s := by
  intro a
  calc (enabledOf a s).length
      ≤ (s.filter (fun r => r.is_enabled)).length := by
        apply length_filter_imp_le
        intro r hr
        simp only [decide_eq_true_eq] at hr
        simp [hr.2]
    _ ≤ 1 := h

theorem atMostOneEnabled_enable (id appType : String) (s : PromptsTable)
    (h1 : (s.map PromptRow.id).Nodup)
    (h2 : AtMostOneEnabled s)
    (hm : ∀ r ∈ s, r.id = id → r.app_type = appType) :
    AtMostOneEnabled (ccPromptsDb.enable id appType s) := by
  intro b
  by_cases hb : b = appType
  · subst hb
    rw [enabledOf_enable_self, List.length_map]
    apply length_filter_le_one_of_key PromptRow.id id
    · intro x hx
      simp only [decide_eq_true_eq] at hx
      exact hx.1
    · exact h1
  · rw [enabledOf_enable_other id appType b hb s hm]
    exact h2 b

/-- A sequence of `enable` calls, oldest first. -/
def enableSeq (s : PromptsTable) (ops : List (String × String)) : PromptsTable :=
  ops.foldl (fun t pr => ccPromptsDb.enable pr.1 pr.2 t) s

theorem atMostOneEnabled_enableSeq (ops : List (String × String))
    (s : PromptsTable) (h1 : (s.map PromptRow.id).Nodup)
    (h2 : AtMostOneEnabled s)
    (hm : ∀ pr ∈ ops, ∀ r ∈ s, r.id = pr.1 → r.app_type = pr.2) :
    AtMostOneEnabled (enableSeq s ops) := by
  induction ops generalizing s with
  | nil => exact h2
  | cons pr rest ih =>
    have hm0 := hm pr (List.mem_cons_self pr rest)
    have hstep := atMostOneEnabled_enable pr.1 pr.2 s h1 h2 hm0
    have hnodup : ((ccPromptsDb.enable pr.1 pr.2 s).map PromptRow.id).Nodup := by
      rw [enable_map_id]
      exact h1
    apply ih (ccPromptsDb.enable pr.1 pr.2 s) hnodup hstep
    intro q hq r hr hid
    obtain ⟨r0, hr0, hrid, hrapp⟩ := mem_enable pr.1 pr.2 s r hr
    rw [hrapp]
    exact hm q (List.mem_cons_of_mem pr hq) r0 hr0 (by rw [← hrid, hid])

theorem enable_exact (id appType : String) (s : PromptsTable)
    (h1 : (s.map PromptRow.id).Nodup) (r : PromptRow) (hr : r ∈ s)
    (hid : r.id = id) (ha : r.app_type = appType) :
    (enabledOf appType (ccPromptsDb.enable id appType s)).map PromptRow.id
      = [id] := by
  rw [enabledOf_enable_self]
  rw [filter_eq_singleton_of_key PromptRow.id _ r s h1 hr
    (by simp [hid, ha]) (by
      intro x hx
      simp only [decide_eq_true_eq] at hx
      rw [hx.1, hid])]
  simp [hid]

theorem enable_idem (id appType : String) (s : PromptsTable) :
    ccPromptsDb.enable id appType (ccPromptsDb.enable id appType s)
      = ccPromptsDb.enable id appType s := by
  rw [enable_eq_map, enable_eq_map, List.map_map]
  apply List.map_congr_left
  intro r _
  show enableFlag id appType (enableFlag id appType r) = enableFlag id appType r
  by_cases h1 : r.id = id
  · unfold enableFlag
    rw [if_pos h1]
    rw [if_pos h1]
  · by_cases h2 : r.app_type = appType
    · unfold enableFlag
      rw [if_neg h1, if_pos h2]
      rw [if_neg h1, if_pos h2]
    · unfold enableFlag
      rw [if_neg h1, if_neg h2, if_neg h1, if_neg h2]

/-- A concrete prompt row, for concrete scenarios. -/
def pRow (id appType : String) (en : Bool) : PromptRow :=
  { id := id, app_type := appType, name := id, content := "c",
    description := none, is_enabled := en, sort_index := 0 }

/-- C4, refuted as stated: with prompt `g1` of `app_type = gemini` enabled,
calling `enable` with the id of gemini prompt `g2` but `app_type = claude`
clears only claude prompts and then sets `g2` enabled with no app-type
condition: afterwards two gemini prompts are enabled, violating
"at most one Prompt per app_type has is_enabled = true". -/
theorem prompt_exclusivity_counterexample :
    (enabledOf "gemini" (ccPromptsDb.enable "g2" "claude"
        [pRow "g1" "gemini" true, pRow "g2" "gemini" false])).length = 2 := by
  decide

/-- C4 (amended): starting from a prompt table with distinct ids and at most
one enabled prompt per app type, and restricting to `enable` calls whose
`app_type` argument matches the app type of the prompt carrying the given id
(the second UPDATE of `enable` has no app-type condition, so a mismatched
call can enable a prompt of another app type without clearing that type),
(a) every sequence of `enable` calls preserves "at most one enabled prompt
per app type"; (b) after `enable(id, a)` with a prompt of id `id` and app
type `a` present, that prompt is the sole enabled prompt of `a`; (c) in
particular enabling P2 after P1 for the same app type leaves only P2
enabled; (d) re-issuing the same `enable` is a no-op on the table. -/
theorem prompt_exclusivity (s : PromptsTable)
    (h1 : (s.map PromptRow.id).Nodup) (h2 : AtMostOneEnabled s) :
    (∀ ops : List (String × String),
        (∀ pr ∈ ops, ∀ r ∈ s, r.id = pr.1 → r.app_type = pr.2) →
        AtMostOneEnabled (enableSeq s ops))
    ∧ (∀ id a r, r ∈ s → r.id = id → r.app_type = a →
        (enabledOf a (ccPromptsDb.enable id a s)).map PromptRow.id = [id])
    ∧ (∀ id1 id2 a r2, r2 ∈ s → r2.id = id2 → r2.app_type = a →
        (enabledOf a (ccPromptsDb.enable id2 a
          (ccPromptsDb.enable id1 a s))).map PromptRow.id = [id2])
    ∧ (∀ id a, ccPromptsDb.enable id a (ccPromptsDb.enable id a s)
        = ccPromptsDb.enable id a s) := by
  refine ⟨fun ops hm => atMostOneEnabled_enableSeq ops s h1 h2 hm,
    fun id a r hr hid ha => enable_exact id a s h1 r hr hid ha,
    fun id1 id2 a r2 hr2 hid2 ha2 => ?_,
    fun id a => enable_idem id a s⟩
  have hnodup : ((ccPromptsDb.enable id1 a s).map PromptRow.id).Nodup := by
    rw [enable_map_id]
    exact h1
  have hr2m : enableFlag id1 a r2 ∈ ccPromptsDb.enable id1 a s := by
    rw [enable_eq_map]
    exact List.mem_map_of_mem (enableFlag id1 a) hr2
  exact enable_exact id2 a (ccPromptsDb.enable id1 a s) hnodup
    (enableFlag id1 a r2) hr2m
    (by rw [enableFlag_id, hid2]) (by rw [enableFlag_app_type, ha2])

/-- Witness for `prompt_exclusivity`: enabling `p2` after `p1` for claude
leaves exactly `p2` enabled. -/
theorem prompt_exclusivity_witness :
    (enabledOf "claude" (ccPromptsDb.enable "p2" "claude"
        (ccPromptsDb.enable "p1" "claude"
          [pRow "p1" "claude" false, pRow "p2" "claude" false]))).map
      PromptRow.id = ["p2"] :=
  (prompt_exclusivity [pRow "p1" "claude" false, pRow "p2" "claude" false]
      (by decide)
      (atMostOneEnabled_of_filter_le _ (by decide))).2.2.1
    "p1" "p2" "claude" (pRow "p2" "claude" false)
    (by decide) (by decide) (by decide)

/-! ## ConfigApplier: file projection (route module `applyProviderConfig`) -/

/-- Config paths of the route module, with `os.homedir()` rendered as `~`. -/
def CLAUDE_DIR : String := "~/.claude"

def CLAUDE_SETTINGS : String := "~/.claude/settings.json"

def CODEX_DIR : String := "~/.codex"

def CODEX_CONFIG : String := "~/.codex/config.toml"

def CODEX_AUTH : String := "~/.codex/auth.json"

def GEMINI_DIR : String := "~/.gemini"

def GEMINI_SETTINGS : String := "~/.gemini/settings.json"

def GEMINI_ENV : String := "~/.gemini/.env"

/-- A primitive file-system operation issued by the config projection. -/
inductive FsOp where
  | mkdirp (path : String)
  | write (path content : String)
  | rename (src dst : String)
  deriving Repr, DecidableEq

/-- The file system as a mapping from paths to file contents. -/
abbrev FS := List (String × String)

def fsGet (fs : FS) (p : String) : Option String :=
  (fs.find? (fun kv => kv.1 = p)).map Prod.snd

def fsDel (fs : FS) (p : String) : FS :=
  fs.filter (fun kv => kv.1 ≠ p)

def fsSet (fs : FS) (p c : String) : FS :=
  (p, c) :: fsDel fs p

/-- Execute one operation. `mkdirp` does not touch file contents; `rename`
moves the source's content over the destination (no-op when the source is
missing). -/
def runOp (fs : FS) : FsOp → FS
  | FsOp.mkdirp _ => fs
  | FsOp.write p c => fsSet fs p c
  | FsOp.rename src dst =>
      match fsGet fs src with
      | some c => fsSet (fsDel fs src) dst c
      | none => fs

def runOps (fs : FS) (ops : List FsOp) : FS :=
  ops.foldl runOp fs

/-- `writeJsonFile` (route module lines 57-62): ensure the directory, write
the serialized document to `filePath + '.tmp'`, rename the temp file over
the target. The serialized content is passed in opaquely. -/
def writeJsonFileOps (dir filePath content : String) : List FsOp :=
  [FsOp.mkdirp dir,
   FsOp.write (filePath ++ ".tmp") content,
   FsOp.rename (filePath ++ ".tmp") filePath]

/-- The file operations performed by `applyProviderConfig` (route module
lines 65-101), per app type. `cfgToml` is `config.configToml`, `openaiKey`
is `env.OPENAI_API_KEY`; the serialized merged settings document, the
serialized auth document and the joined `KEY=value` lines are passed in
opaquely (their contents are modelled at the JSON level separately).
Note that the codex `config.toml` and the gemini `.env` are written with a
plain `fs.writeFile`, not through `writeJsonFile`. -/
def applyProviderConfigOps (appType : String) (cfgToml openaiKey : Option String)
    (mergedSettings authJson envLines : String) : List FsOp :=
  if appType = "claude" then
    FsOp.mkdirp CLAUDE_DIR :: writeJsonFileOps CLAUDE_DIR CLAUDE_SETTINGS mergedSettings
  else if appType = "codex" then
    FsOp.mkdirp CODEX_DIR ::
      ((match cfgToml with
        | some t => [FsOp.write CODEX_CONFIG t]
        | none => []) ++
       (match openaiKey with
        | some _ => writeJsonFileOps CODEX_DIR CODEX_AUTH authJson
        | none => []))
  else if appType = "gemini" then
    (FsOp.mkdirp GEMINI_DIR ::
      writeJsonFileOps GEMINI_DIR GEMINI_SETTINGS mergedSettings)
      ++ [FsOp.write GEMINI_ENV envLines]
  else []

/-- The trace contains a plain in-place write of the target path. -/
def writesDirectly (ops : List FsOp) (target : String) : Prop :=
  ∃ c, FsOp.write target c ∈ ops

/-- The trace writes the target only through a temp sibling plus rename. -/
def atomicallyWritten (ops : List FsOp) (target : String) : Prop :=
  ¬ writesDirectly ops target
  ∧ ∃ c, FsOp.write (target ++ ".tmp") c ∈ ops
      ∧ FsOp.rename (target ++ ".tmp") target ∈ ops

theorem find?_fsDel_ne (p q : String) (h : q ≠ p) (fs : FS) :
    (fsDel fs p).find? (fun kv => kv.1 = q) = fs.find? (fun kv => kv.1 = q) := by
  induction fs with
  | nil => rfl
  | cons kv t ih =>
    simp only [fsDel] at ih ⊢
    simp only [decide_not] at ih ⊢
    by_cases hq : kv.1 = q
    · have hp : ¬(kv.1 = p) := by
        rw [hq]
        exact h
      simp [List.filter_cons, List.find?_cons, hp, hq, h]
    · by_cases hp : kv.1 = p <;>
        simp [List.filter_cons, List.find?_cons, hp, hq, h, Ne.symm h, ih,
          -List.find?_filter]

theorem fsGet_fsSet_self (fs : FS) (p c : String) :
    fsGet (fsSet fs p c) p = some c := by
  simp [fsGet, fsSet, List.find?_cons]

theorem fsGet_fsSet_ne (fs : FS) (p c q : String) (h : q ≠ p) :
    fsGet (fsSet fs p c) q = fsGet fs q := by
  unfold fsGet fsSet
  rw [List.find?_cons]
  rw [show decide (((p, c) : String × String).1 = q) = false from by
    simp
    exact fun hc => h hc.symm]
  change Option.map Prod.snd ((fsDel fs p).find? (fun kv => kv.1 = q))
    = Option.map Prod.snd (fs.find? (fun kv => kv.1 = q))
  rw [find?_fsDel_ne p q h fs]

theorem fsGet_fsDel_ne (fs : FS) (p q : String) (h : q ≠ p) :
    fsGet (fsDel fs p) q = fsGet fs q := by
  unfold fsGet
  rw [find?_fsDel_ne p q h fs]

/-- Crash-prefix safety of the temp-write-then-rename pattern: at every
cut point, the target path holds either its original content or the full
new content. -/
theorem writeJson_prefix_safe (fs : FS) (d1 d2 t c : String)
    (hne : t ≠ t ++ ".tmp") (n : Nat) :
    fsGet (runOps fs ((FsOp.mkdirp d1 :: writeJsonFileOps d2 t c).take n)) t
      = fsGet fs t
    ∨ fsGet (runOps fs ((FsOp.mkdirp d1 :: writeJsonFileOps d2 t c).take n)) t
      = some c := by
  match n with
  | 0 => exact Or.inl rfl
  | 1 => exact Or.inl rfl
  | 2 => exact Or.inl rfl
  | 3 =>
    left
    show fsGet (fsSet fs (t ++ ".tmp") c) t = fsGet fs t
    exact fsGet_fsSet_ne fs (t ++ ".tmp") c t hne
  | (m + 4) =>
    right
    rw [List.take_of_length_le (by simp [writeJsonFileOps])]
    show fsGet (runOp (fsSet fs (t ++ ".tmp") c)
      (FsOp.rename (t ++ ".tmp") t)) t = some c
    rw [runOp, fsGet_fsSet_self]
    exact fsGet_fsSet_self _ t c

theorem gemini_prefix_safe (fs : FS) (m e : String) (n : Nat) :
    fsGet (runOps fs (((FsOp.mkdirp GEMINI_DIR ::
        writeJsonFileOps GEMINI_DIR GEMINI_SETTINGS m)
        ++ [FsOp.write GEMINI_ENV e]).take n)) GEMINI_SETTINGS
      = fsGet fs GEMINI_SETTINGS
    ∨ fsGet (runOps fs (((FsOp.mkdirp GEMINI_DIR ::
        writeJsonFileOps GEMINI_DIR GEMINI_SETTINGS m)
        ++ [FsOp.write GEMINI_ENV e]).take n)) GEMINI_SETTINGS
      = some m := by
  match n with
  | 0 => exact Or.inl rfl
  | 1 => exact Or.inl rfl
  | 2 => exact Or.inl rfl
  | 3 =>
    left
    show fsGet (fsSet fs (GEMINI_SETTINGS ++ ".tmp") m) GEMINI_SETTINGS
      = fsGet fs GEMINI_SETTINGS
    exact fsGet_fsSet_ne fs (GEMINI_SETTINGS ++ ".tmp") m GEMINI_SETTINGS
      (by decide)
  | 4 =>
    right
    show fsGet (runOp (fsSet fs (GEMINI_SETTINGS ++ ".tmp") m)
      (FsOp.rename (GEMINI_SETTINGS ++ ".tmp") GEMINI_SETTINGS))
      GEMINI_SETTINGS = some m
    rw [runOp, fsGet_fsSet_self]
    exact fsGet_fsSet_self _ _ m
  | (k + 5) =>
    right
    rw [List.take_of_length_le (by simp [writeJsonFileOps])]
    show fsGet (fsSet (runOp (fsSet fs (GEMINI_SETTINGS ++ ".tmp") m)
      (FsOp.rename (GEMINI_SETTINGS ++ ".tmp") GEMINI_SETTINGS))
      GEMINI_ENV e) GEMINI_SETTINGS = some m
    rw [fsGet_fsSet_ne _ _ _ _ (by decide)]
    rw [runOp, fsGet_fsSet_self]
    exact fsGet_fsSet_self _ _ m

/-- C5, refuted as stated: the codex `config.toml` and the gemini `.env`
file are written with a plain in-place `fs.writeFile` on the target path —
no temp sibling, no rename — contradicting "no write is an in-place
truncate-and-write" for those two files. -/
theorem atomic_write_claim_counterexample :
    FsOp.write CODEX_CONFIG "model = x"
        ∈ applyProviderConfigOps "codex" (some "model = x") none "" "" ""
    ∧ FsOp.write GEMINI_ENV "K=v"
        ∈ applyProviderConfigOps "gemini" none none "" "" "K=v" := by
  refine ⟨by decide, by decide⟩

/-- C5 (amended): the claude `settings.json`, the gemini `settings.json`
and the codex `auth.json` are written atomically — the serialized document
goes to the `.tmp` sibling which is then renamed over the target, and at
every crash prefix the target holds either its original or its full new
content — while the codex `config.toml` and the gemini `.env` file are
written with a plain in-place `fs.writeFile`. -/
theorem atomic_projection (fs : FS) (ct ok : Option String)
    (toml key mergedSettings authJson envLines : String) :
    (∀ n, fsGet (runOps fs ((applyProviderConfigOps "claude" ct ok
          mergedSettings authJson envLines).take n)) CLAUDE_SETTINGS
        = fsGet fs CLAUDE_SETTINGS
      ∨ fsGet (runOps fs ((applyProviderConfigOps "claude" ct ok
          mergedSettings authJson envLines).take n)) CLAUDE_SETTINGS
        = some mergedSettings)
    ∧ (∀ n, fsGet (runOps fs ((applyProviderConfigOps "gemini" ct ok
          mergedSettings authJson envLines).take n)) GEMINI_SETTINGS
        = fsGet fs GEMINI_SETTINGS
      ∨ fsGet (runOps fs ((applyProviderConfigOps "gemini" ct ok
          mergedSettings authJson envLines).take n)) GEMINI_SETTINGS
        = some mergedSettings)
    ∧ atomicallyWritten (applyProviderConfigOps "claude" ct ok
        mergedSettings authJson envLines) CLAUDE_SETTINGS
    ∧ atomicallyWritten (applyProviderConfigOps "gemini" ct ok
        mergedSettings authJson envLines) GEMINI_SETTINGS
    ∧ atomicallyWritten (applyProviderConfigOps "codex" (some toml) (some key)
        mergedSettings authJson envLines) CODEX_AUTH
    ∧ writesDirectly (applyProviderConfigOps "codex" (some toml) (some key)
        mergedSettings authJson envLines) CODEX_CONFIG
    ∧ writesDirectly (applyProviderConfigOps "gemini" ct ok
        mergedSettings authJson envLines) GEMINI_ENV := by
  have hclaude : applyProviderConfigOps "claude" ct ok
      mergedSettings authJson envLines
      = FsOp.mkdirp CLAUDE_DIR
        :: writeJsonFileOps CLAUDE_DIR CLAUDE_SETTINGS mergedSettings := rfl
  have hgemini : applyProviderConfigOps "gemini" ct ok
      mergedSettings authJson envLines
      = (FsOp.mkdirp GEMINI_DIR
        :: writeJsonFileOps GEMINI_DIR GEMINI_SETTINGS mergedSettings)
        ++ [FsOp.write GEMINI_ENV envLines] := rfl
  have hcodex : applyProviderConfigOps "codex" (some toml) (some key)
      mergedSettings authJson envLines
      = FsOp.mkdirp CODEX_DIR
        :: ([FsOp.write CODEX_CONFIG toml]
          ++ writeJsonFileOps CODEX_DIR CODEX_AUTH authJson) := rfl
  refine ⟨?_, ?_, ?_, ?_, ?_, ?_, ?_⟩
  · intro n
    rw [hclaude]
    exact writeJson_prefix_safe fs CLAUDE_DIR CLAUDE_DIR CLAUDE_SETTINGS
      mergedSettings (by decide) n
  · intro n
    rw [hgemini]
    exact gemini_prefix_safe fs mergedSettings envLines n
  · rw [hclaude]
    constructor
    · rintro ⟨c, hc⟩
      simp only [writeJsonFileOps, List.mem_cons, List.mem_singleton] at hc
      rcases hc with h | h | h | h <;> simp at h
      exact absurd h.1 (by decide)
    · exact ⟨mergedSettings, by simp [writeJsonFileOps],
        by simp [writeJsonFileOps]⟩
  · rw [hgemini]
    constructor
    · rintro ⟨c, hc⟩
      simp only [writeJsonFileOps, List.mem_append, List.mem_cons,
        List.mem_singleton] at hc
      rcases hc with (h | h | h | h) | h <;> simp at h
      · exact absurd h.1 (by decide)
      · exact absurd h.1 (by decide)
    · exact ⟨mergedSettings, by simp [writeJsonFileOps],
        by simp [writeJsonFileOps]⟩
  · rw [hcodex]
    constructor
    · rintro ⟨c, hc⟩
      simp only [writeJsonFileOps, List.mem_cons, List.mem_append,
        List.mem_singleton] at hc
      rcases hc with h | h | h | h | h <;> simp at h
      · exact absurd h.1 (by decide)
      · exact absurd h.1 (by decide)
    · exact ⟨authJson, by simp [writeJsonFileOps], by simp [writeJsonFileOps]⟩
  · rw [hcodex]
    exact ⟨toml, by simp⟩
  · rw [hgemini]
    exact ⟨envLines, by simp [writeJsonFileOps]⟩

/-- Witness for `atomic_projection` at a concrete file system: a crash
right after the temp write (prefix of length 3) leaves the claude settings
file holding its original content. -/
theorem atomic_projection_witness :
    fsGet (runOps [(CLAUDE_SETTINGS, "old")]
        ((applyProviderConfigOps "claude" none none "new" "" "").take 3))
      CLAUDE_SETTINGS = some "old"
    ∨ fsGet (runOps [(CLAUDE_SETTINGS, "old")]
        ((applyProviderConfigOps "claude" none none "new" "" "").take 3))
      CLAUDE_SETTINGS = some "new" :=
  (atomic_projection [(CLAUDE_SETTINGS, "old")] none none
    "t" "k" "new" "" "").1 3

/-! ## ConfigApplier: JSON merge semantics (claude and gemini branches) -/

/-- A JSON-like value: a leaf (rendered as its string form) or an object. -/
inductive JsVal where
  | str (s : String)
  | obj (fields : List (String × JsVal))
  deriving Repr

/-- A JS object: ordered key-value fields. -/
abbrev Obj := List (String × JsVal)

/-- Property read `o[k]`: first field with that key. -/
def objGet (o : Obj) (k : String) : Option JsVal :=
  (o.find? (fun kv => kv.1 = k)).map Prod.snd

/-- Property assignment `o[k] = v`: overwrite in place when the key exists,
otherwise append. -/
def objSetKey (o : Obj) (k : String) (v : JsVal) : Obj :=
  if o.any (fun kv => kv.1 = k) then
    o.map (fun kv => if kv.1 = k then (k, v) else kv)
  else
    o ++ [(k, v)]

/-- The override of one existing field by the spread source `b`. -/
def overrideBy (b : Obj) (kv : String × JsVal) : String × JsVal :=
  match objGet b kv.1 with
  | some v => (kv.1, v)
  | none => kv

/-- Object spread of `b` over `a` (the JS `settings.env = ` merge on line
72/93 of the route module): the fields of `a` in order, each overridden by
`b` when `b` carries the key, followed by the fields of `b` whose key is
not in `a`. -/
def jsSpread (a b : Obj) : Obj :=
  a.map (overrideBy b)
  ++ b.filter (fun kv => ¬ a.any (fun kv2 => kv2.1 = kv.1))

/-- `readJsonFile` (route module lines 48-55): parse the file, and return
the empty object when the file is missing or unparsable (the catch
branch). The parsed document, when there is one, is passed in as `some o`. -/
def readJsonFileModel (file : Option Obj) : Obj :=
  file.getD []

/-- `settings.env` as spread by line 72: the existing `env` object, or the
empty object when the field is absent. -/
def envGet (settings : Obj) : Obj :=
  match objGet settings "env" with
  | some (JsVal.obj o) => o
  | _ => []

/-- A provider `env` map (string to string) as a JS object. -/
def envToObj (env : List (String × String)) : Obj :=
  env.map (fun kv => (kv.1, JsVal.str kv.2))

/-- Lines 70-73 of the route module (and identically lines 91-94 for
gemini): read the settings file, set `settings.env` to the spread of the
provider env over the existing env, and return the document that is then
written back through `writeJsonFile`. -/
def applyClaudeSettings (file : Option Obj) (env : List (String × String)) : Obj :=
  let settings := readJsonFileModel file
  objSetKey settings "env"
    (JsVal.obj (jsSpread (envGet settings) (envToObj env)))

/-- The `settings.env` field is absent or an object (the only shape on
which the JS spread behaves as an object merge). -/
def EnvShapeOk (s : Obj) : Prop :=
  match objGet s "env" with
  | none => True
  | some (JsVal.obj _) => True
  | some (JsVal.str _) => False

theorem find?_filter_of_imp {α : Type} (p g : α → Bool)
    (h : ∀ x, p x = true → g x = true) (l : List α) :
    (l.filter g).find? p = l.find? p := by
  induction l with
  | nil => rfl
  | cons x t ih =>
    by_cases hg : g x = true
    · rw [List.filter_cons_of_pos hg, List.find?_cons, List.find?_cons]
      cases hp : p x
      · exact ih
      · rfl
    · have hp : p x = false := by
        cases hpx : p x
        · rfl
        · exact absurd (h x hpx) hg
      rw [List.filter_cons_of_neg (by simp [hg]), List.find?_cons, hp]
      exact ih

theorem overrideBy_fst (b : Obj) (kv : String × JsVal) :
    (overrideBy b kv).1 = kv.1 := by
  unfold overrideBy
  cases objGet b kv.1 <;> rfl

theorem objGet_map_overrideBy (a b : Obj) (k : String) :
    objGet (a.map (overrideBy b)) k
      = (a.find? (fun kv => kv.1 = k)).map (fun kv => (overrideBy b kv).2) := by
  unfold objGet
  rw [List.find?_map]
  rw [show ((fun kv : String × JsVal => decide (kv.1 = k)) ∘ overrideBy b)
      = (fun kv : String × JsVal => decide (kv.1 = k)) from funext fun kv => by
    simp [Function.comp, overrideBy_fst]]
  rw [Option.map_map]
  rfl

theorem objGet_append (x y : Obj) (k : String) :
    objGet (x ++ y) k
      = match objGet x k with
        | some v => some v
        | none => objGet y k := by
  unfold objGet
  rw [List.find?_append]
  cases h : x.find? (fun kv => kv.1 = k) <;> simp [h]

theorem objGet_jsSpread (a b : Obj) (k : String) :
    objGet (jsSpread a b) k
      = match objGet b k with
        | some v => some v
        | none => objGet a k := by
  unfold jsSpread
  rw [objGet_append]
  cases ha : a.find? (fun kv => kv.1 = k) with
  | none =>
    rw [objGet_map_overrideBy, ha]
    have hany : a.any (fun kv => kv.1 = k) = false := by
      rw [List.any_eq_false]
      intro kv hkv
      rw [List.find?_eq_none] at ha
      exact ha kv hkv
    have hfil : objGet (b.filter
        (fun kv => ¬ a.any (fun kv2 => kv2.1 = kv.1))) k = objGet b k := by
      unfold objGet
      rw [find?_filter_of_imp]
      intro x hx
      simp only [decide_eq_true_eq] at hx
      rw [hx]
      simp [hany]
    simp only [Option.map_none']
    rw [hfil]
    rw [show objGet a k = ((a.find? fun kv => kv.1 = k)).map Prod.snd from rfl,
      ha]
    cases objGet b k <;> rfl
  | some kva =>
    have hk : kva.1 = k := by
      have h1 := List.find?_some ha
      simpa using h1
    rw [objGet_map_overrideBy, ha]
    simp only [Option.map_some']
    unfold overrideBy
    rw [hk]
    cases hb : objGet b k with
    | some v => rfl
    | none =>
      rw [show objGet a k
          = ((a.find? fun kv => kv.1 = k)).map Prod.snd from rfl, ha]
      rfl

theorem objGet_map_replace_self (s : Obj) (k : String) (v : JsVal)
    (hany : s.any (fun kv => kv.1 = k) = true) :
    objGet (s.map (fun kv => if kv.1 = k then (k, v) else kv)) k = some v := by
  induction s with
  | nil => simp at hany
  | cons kv t ih =>
    by_cases hk : kv.1 = k
    · simp only [List.map_cons, if_pos hk]
      unfold objGet
      rw [List.find?_cons]
      simp
    · simp only [List.map_cons, if_neg hk]
      unfold objGet
      rw [List.find?_cons]
      rw [show decide (kv.1 = k) = false from by simp [hk]]
      have hany' : t.any (fun kv => kv.1 = k) = true := by
        rw [List.any_cons] at hany
        rcases Bool.or_eq_true_iff.mp hany with h | h
        · exact absurd (by simpa using h) hk
        · exact h
      exact ih hany'

theorem objGet_objSetKey_self (s : Obj) (k : String) (v : JsVal) :
    objGet (objSetKey s k v) k = some v := by
  unfold objSetKey
  by_cases hany : s.any (fun kv => kv.1 = k) = true
  · rw [if_pos hany]
    exact objGet_map_replace_self s k v hany
  · rw [if_neg hany]
    unfold objGet
    rw [List.find?_append]
    have hnone : s.find? (fun kv => kv.1 = k) = none := by
      rw [List.find?_eq_none]
      intro kv hkv hpred
      rw [Bool.not_eq_true, List.any_eq_false] at hany
      exact absurd hpred (hany kv hkv)
    rw [hnone]
    simp

theorem objGet_objSetKey_ne (s : Obj) (k : String) (v : JsVal) (q : String)
    (h : q ≠ k) : objGet (objSetKey s k v) q = objGet s q := by
  unfold objSetKey
  by_cases hany : s.any (fun kv => kv.1 = k) = true
  · rw [if_pos hany]
    clear hany
    induction s with
    | nil => rfl
    | cons kv t ih =>
      by_cases hk : kv.1 = k
      · simp only [List.map_cons, if_pos hk]
        unfold objGet
        rw [List.find?_cons, List.find?_cons]
        rw [show decide (((k, v) : String × JsVal).1 = q) = false from by
          simp
          exact fun hc => h hc.symm]
        rw [show decide (kv.1 = q) = false from by
          simp
          rw [hk]
          exact fun hc => h hc.symm]
        exact ih
      · simp only [List.map_cons, if_neg hk]
        unfold objGet
        rw [List.find?_cons, List.find?_cons]
        cases hq : decide (kv.1 = q)
        · exact ih
        · rfl
  · rw [if_neg hany]
    unfold objGet
    rw [List.find?_append]
    cases hs : s.find? (fun kv => kv.1 = q)
    · simp [List.find?_cons, show ¬(k = q) from fun hc => h hc.symm]
    · rfl

/-- C6 (confirmed): for claude and gemini the projection reads the JSON
settings file (a missing or unparsable file acts as the empty document),
replaces its `env` field with the spread of the provider env over the
existing env — provider keys overwrite, other existing env keys survive —
and leaves every other top-level field untouched; on the spec\u2019s example the
resulting document is exactly `\u007b"env":\u007b"FOO":"1","BAR":"9","BAZ":"3"\u007d\u007d`. -/
theorem claude_gemini_merge (file : Option Obj) (env : List (String × String))
    (_hshape : EnvShapeOk (readJsonFileModel file)) :
    (∀ k, k ≠ "env" →
      objGet (applyClaudeSettings file env) k
        = objGet (readJsonFileModel file) k)
    ∧ objGet (applyClaudeSettings file env) "env"
        = some (JsVal.obj
            (jsSpread (envGet (readJsonFileModel file)) (envToObj env)))
    ∧ (∀ k, objGet (jsSpread (envGet (readJsonFileModel file)) (envToObj env)) k
        = match objGet (envToObj env) k with
          | some v => some v
          | none => objGet (envGet (readJsonFileModel file)) k)
    ∧ applyClaudeSettings
        (some [("env", JsVal.obj
          [("FOO", JsVal.str "1"), ("BAR", JsVal.str "2")])])
        [("BAR", "9"), ("BAZ", "3")]
      = [("env", JsVal.obj
          [("FOO", JsVal.str "1"), ("BAR", JsVal.str "9"),
           ("BAZ", JsVal.str "3")])] := by
  refine ⟨?_, ?_, ?_, rfl⟩
  · intro k hk
    exact objGet_objSetKey_ne (readJsonFileModel file) "env" _ k hk
  · exact objGet_objSetKey_self (readJsonFileModel file) "env" _
  · intro k
    exact objGet_jsSpread (envGet (readJsonFileModel file)) (envToObj env) k

/-- Witness for `claude_gemini_merge` at the spec\u2019s example file. -/
theorem claude_gemini_merge_witness :
    objGet (jsSpread (envGet (readJsonFileModel
        (some [("env", JsVal.obj
          [("FOO", JsVal.str "1"), ("BAR", JsVal.str "2")])])))
      (envToObj [("BAR", "9"), ("BAZ", "3")])) "BAR"
      = some (JsVal.str "9") := by
  rw [(claude_gemini_merge
    (some [("env", JsVal.obj
      [("FOO", JsVal.str "1"), ("BAR", JsVal.str "2")])])
    [("BAR", "9"), ("BAZ", "3")] trivial).2.2.1 "BAR"]
  rfl

/-! ## SecretMask: display masking of credential-shaped env entries -/

/-- Generic string-keyed association map with JS object semantics:
first-occurrence lookup, overwrite-in-place-or-append assignment,
delete. -/
def alGet {α : Type} (l : List (String × α)) (k : String) : Option α :=
  (l.find? (fun kv => kv.1 = k)).map Prod.snd

def alSet {α : Type} (l : List (String × α)) (k : String) (v : α) :
    List (String × α) :=
  if l.any (fun kv => kv.1 = k) then
    l.map (fun kv => if kv.1 = k then (k, v) else kv)
  else
    l ++ [(k, v)]

def alDel {α : Type} (l : List (String × α)) (k : String) :
    List (String × α) :=
  l.filter (fun kv => kv.1 ≠ k)

theorem alGet_map_replace_self {α : Type} (l : List (String × α))
    (k : String) (v : α) (hany : l.any (fun kv => kv.1 = k) = true) :
    alGet (l.map (fun kv => if kv.1 = k then (k, v) else kv)) k = some v := by
  induction l with
  | nil => simp at hany
  | cons kv t ih =>
    by_cases hk : kv.1 = k
    · simp only [List.map_cons, if_pos hk]
      unfold alGet
      rw [List.find?_cons]
      simp
    · simp only [List.map_cons, if_neg hk]
      unfold alGet
      rw [List.find?_cons]
      rw [show decide (kv.1 = k) = false from by simp [hk]]
      have hany' : t.any (fun kv => kv.1 = k) = true := by
        rw [List.any_cons] at hany
        rcases Bool.or_eq_true_iff.mp hany with h | h
        · exact absurd (by simpa using h) hk
        · exact h
      exact ih hany'

theorem alGet_alSet_self {α : Type} (l : List (String × α)) (k : String)
    (v : α) : alGet (alSet l k v) k = some v := by
  unfold alSet
  by_cases hany : l.any (fun kv => kv.1 = k) = true
  · rw [if_pos hany]
    exact alGet_map_replace_self l k v hany
  · rw [if_neg hany]
    unfold alGet
    rw [List.find?_append]
    have hnone : l.find? (fun kv => kv.1 = k) = none := by
      rw [List.find?_eq_none]
      intro kv hkv hpred
      rw [Bool.not_eq_true, List.any_eq_false] at hany
      exact absurd hpred (hany kv hkv)
    rw [hnone]
    simp

theorem alGet_alSet_ne {α : Type} (l : List (String × α)) (k : String)
    (v : α) (q : String) (h : q ≠ k) : alGet (alSet l k v) q = alGet l q := by
  unfold alSet
  by_cases hany : l.any (fun kv => kv.1 = k) = true
  · rw [if_pos hany]
    clear hany
    induction l with
    | nil => rfl
    | cons kv t ih =>
      by_cases hk : kv.1 = k
      · simp only [List.map_cons, if_pos hk]
        unfold alGet
        rw [List.find?_cons, List.find?_cons]
        rw [show decide (((k, v) : String × α).1 = q) = false from by
          simp
          exact fun hc => h hc.symm]
        rw [show decide (kv.1 = q) = false from by
          simp
          rw [hk]
          exact fun hc => h hc.symm]
        exact ih
      · simp only [List.map_cons, if_neg hk]
        unfold alGet
        rw [List.find?_cons, List.find?_cons]
        cases hq : decide (kv.1 = q)
        · exact ih
        · rfl
  · rw [if_neg hany]
    unfold alGet
    rw [List.find?_append]
    cases hs : l.find? (fun kv => kv.1 = q)
    · simp [List.find?_cons, show ¬(k = q) from fun hc => h hc.symm]
    · rfl

theorem alGet_alDel_self {α : Type} (l : List (String × α)) (k : String) :
    alGet (alDel l k) k = none := by
  unfold alGet alDel
  rw [Option.map_eq_none']
  rw [List.find?_eq_none]
  intro kv hkv
  rw [List.mem_filter] at hkv
  have h2 := hkv.2
  simp only [decide_not, Bool.not_eq_eq_eq_not, Bool.not_true,
    decide_eq_false_iff_not] at h2
  simp [h2]

theorem alGet_alDel_ne {α : Type} (l : List (String × α)) (k q : String)
    (h : q ≠ k) : alGet (alDel l k) q = alGet l q := by
  unfold alGet alDel
  rw [find?_filter_of_imp]
  intro kv hkv
  simp only [decide_eq_true_eq] at hkv
  simp [hkv, h]

/-- `key.includes('TOKEN') || key.includes('KEY') || key.includes('SECRET')`
of the providers route (case-sensitive substring test). -/
def sensitiveKey (k : String) : Bool :=
  decide ("TOKEN".data <:+: k.data) || decide ("KEY".data <:+: k.data)
    || decide ("SECRET".data <:+: k.data)

/-- `value.substring(0, 8) + '...' + value.substring(value.length - 4)`. -/
def maskVal (v : String) : String :=
  String.mk (v.data.take 8) ++ "..." ++ String.mk (v.data.drop (v.data.length - 4))

/-- One iteration of the masking loop of `router.get('/providers')` (route
module lines 139-147): for a sensitive key whose current value is longer
than 12 characters, assign `key + '_MASKED'` and delete the original key;
otherwise leave the map as it is. -/
def maskStep (e : List (String × String)) (k : String) :
    List (String × String) :=
  if sensitiveKey k then
    match alGet e k with
    | some v =>
        if 12 < v.data.length then alDel (alSet e (k ++ "_MASKED") (maskVal v)) k
        else e
    | none => e
  else e

/-- The masking loop: iterate over the snapshot of `Object.keys` taken
before any mutation, updating the copied map. -/
def maskEnv (e : List (String × String)) : List (String × String) :=
  (e.map Prod.fst).foldl maskStep e

theorem ne_append_MASKED (k : String) : k ≠ k ++ "_MASKED" := by
  intro h
  have h2 : k.length = k.length + "_MASKED".length := by
    conv_lhs => rw [h]
    exact String.length_append k "_MASKED"
  have h3 : "_MASKED".length = 7 := rfl
  rw [h3] at h2
  omega

theorem masked_inj {a b : String} (h : a ++ "_MASKED" = b ++ "_MASKED") :
    a = b := by
  have hd : a.data ++ "_MASKED".data = b.data ++ "_MASKED".data :=
    congrArg String.data h
  exact String.ext (List.append_cancel_right hd)

theorem maskStep_untouched (e : List (String × String)) (k q : String)
    (h1 : q ≠ k) (h2 : q ≠ k ++ "_MASKED") :
    alGet (maskStep e k) q = alGet e q := by
  unfold maskStep
  by_cases hs : sensitiveKey k = true
  · rw [if_pos hs]
    cases hv : alGet e k with
    | none => rfl
    | some v =>
      dsimp only
      by_cases hl : 12 < v.data.length
      · rw [if_pos hl, alGet_alDel_ne _ _ _ h1, alGet_alSet_ne _ _ _ _ h2]
      · rw [if_neg hl]
  · rw [if_neg hs]

theorem maskStep_long (e : List (String × String)) (k v : String)
    (hs : sensitiveKey k = true) (hv : alGet e k = some v)
    (hl : 12 < v.data.length) :
    alGet (maskStep e k) k = none
    ∧ alGet (maskStep e k) (k ++ "_MASKED") = some (maskVal v) := by
  unfold maskStep
  rw [if_pos hs, hv]
  dsimp only
  rw [if_pos hl]
  constructor
  · exact alGet_alDel_self _ k
  · rw [alGet_alDel_ne _ _ _ (Ne.symm (ne_append_MASKED k))]
    exact alGet_alSet_self _ _ _

theorem maskStep_noop_short (e : List (String × String)) (k v : String)
    (hv : alGet e k = some v) (hl : ¬ 12 < v.data.length) :
    maskStep e k = e := by
  unfold maskStep
  by_cases hs : sensitiveKey k = true
  · rw [if_pos hs, hv]
    dsimp only
    rw [if_neg hl]
  · rw [if_neg hs]

theorem maskStep_noop_notsensitive (e : List (String × String)) (k : String)
    (hs : sensitiveKey k = false) : maskStep e k = e := by
  unfold maskStep
  rw [if_neg (by simp [hs])]

theorem foldl_maskStep_untouched (ks : List String)
    (e : List (String × String)) (q : String)
    (h : ∀ k' ∈ ks, q ≠ k' ∧ q ≠ k' ++ "_MASKED") :
    alGet (ks.foldl maskStep e) q = alGet e q := by
  induction ks generalizing e with
  | nil => rfl
  | cons k' rest ih =>
    have hk' := h k' (List.mem_cons_self k' rest)
    rw [List.foldl_cons,
      ih (maskStep e k') (fun x hx => h x (List.mem_cons_of_mem k' hx)),
      maskStep_untouched e k' q hk'.1 hk'.2]

theorem alGet_of_mem_nodup {α : Type} (l : List (String × α))
    (hnodup : (l.map Prod.fst).Nodup) (kv : String × α) (h : kv ∈ l) :
    alGet l kv.1 = some kv.2 := by
  induction l with
  | nil => cases h
  | cons x t ih =>
    simp only [List.map_cons, List.nodup_cons] at hnodup
    rcases List.mem_cons.mp h with rfl | hmem
    · unfold alGet
      rw [List.find?_cons]
      simp
    · have hx : ¬(x.1 = kv.1) := by
        intro hc
        exact hnodup.1 (hc ▸ List.mem_map_of_mem Prod.fst hmem)
      unfold alGet
      rw [List.find?_cons]
      rw [show decide (x.1 = kv.1) = false from by simp [hx]]
      exact ih hnodup.2 hmem

/-- C7, refuted as stated: on a map that already carries both `FOO_KEY`
(long, sensitive) and `FOO_KEY_MASKED` (value `"x"`, length ≤ 12), the
masking of `FOO_KEY` assigns `FOO_KEY + \u0027_MASKED\u0027` and thereby overwrites
the existing `FOO_KEY_MASKED` entry: an entry whose value has length ≤ 12
is not passed through unchanged. -/
theorem secret_mask_claim_counterexample :
    ("FOO_KEY_MASKED", "x")
        ∈ ([("FOO_KEY_MASKED", "x"), ("FOO_KEY", "0123456789abcdef")]
          : List (String × String))
    ∧ ("x" : String).data.length ≤ 12
    ∧ alGet (maskEnv [("FOO_KEY_MASKED", "x"),
        ("FOO_KEY", "0123456789abcdef")]) "FOO_KEY_MASKED"
      = some "01234567...cdef"
    ∧ (some "01234567...cdef" : Option String) ≠ some "x" := by
  refine ⟨by decide, by decide, by decide, by decide⟩

/-- C7 (amended): on an env map with pairwise distinct keys none of which
is another key suffixed `_MASKED`, the display masking replaces each entry
whose key contains `TOKEN`, `KEY` or `SECRET` and whose value is longer
than 12 characters by `key + \u0027_MASKED\u0027` holding first-8 + "..." + last-4
and drops the original key; sensitive entries with value length ≤ 12 and
all non-sensitive entries are returned unchanged. (Without the no-collision
hypothesis a generated `_MASKED` key can overwrite an existing entry.) -/
theorem secret_mask (e : List (String × String))
    (hnodup : (e.map Prod.fst).Nodup)
    (hnc : ∀ k1 ∈ e.map Prod.fst, ∀ k2 ∈ e.map Prod.fst,
      k1 ≠ k2 ++ "_MASKED") :
    ∀ kv ∈ e,
      (sensitiveKey kv.1 = true → 12 < kv.2.data.length →
        alGet (maskEnv e) (kv.1 ++ "_MASKED") = some (maskVal kv.2)
        ∧ alGet (maskEnv e) kv.1 = none)
      ∧ (sensitiveKey kv.1 = true → kv.2.data.length ≤ 12 →
        alGet (maskEnv e) kv.1 = some kv.2)
      ∧ (sensitiveKey kv.1 = false →
        alGet (maskEnv e) kv.1 = some kv.2) := by
  intro kv hkv
  have hkmem : kv.1 ∈ e.map Prod.fst := List.mem_map_of_mem Prod.fst hkv
  obtain ⟨ks1, ks2, hsplit⟩ := List.append_of_mem hkmem
  have hnd : (ks1 ++ kv.1 :: ks2).Nodup := by
    rw [← hsplit]
    exact hnodup
  have hknot : kv.1 ∉ ks1 ++ ks2 :=
    (List.nodup_cons.mp (List.nodup_middle.mp hnd)).1
  have hknot1 : kv.1 ∉ ks1 := fun h => hknot (List.mem_append_left _ h)
  have hknot2 : kv.1 ∉ ks2 := fun h => hknot (List.mem_append_right _ h)
  have hks1keys : ∀ x ∈ ks1, x ∈ e.map Prod.fst := fun x hx => by
    rw [hsplit]
    exact List.mem_append_left _ hx
  have hks2keys : ∀ x ∈ ks2, x ∈ e.map Prod.fst := fun x hx => by
    rw [hsplit]
    exact List.mem_append_right _ (List.mem_cons_of_mem _ hx)
  have hvk : alGet e kv.1 = some kv.2 := alGet_of_mem_nodup e hnodup kv hkv
  have hfold : maskEnv e
      = ks2.foldl maskStep (maskStep (ks1.foldl maskStep e) kv.1) := by
    unfold maskEnv
    rw [hsplit, List.foldl_append, List.foldl_cons]
  have huntouched1 : ∀ k' ∈ ks1, kv.1 ≠ k' ∧ kv.1 ≠ k' ++ "_MASKED" := by
    intro k' hk'
    exact ⟨fun hc => hknot1 (hc ▸ hk'),
      hnc kv.1 hkmem k' (hks1keys k' hk')⟩
  have huntouched2 : ∀ k' ∈ ks2, kv.1 ≠ k' ∧ kv.1 ≠ k' ++ "_MASKED" := by
    intro k' hk'
    exact ⟨fun hc => hknot2 (hc ▸ hk'),
      hnc kv.1 hkmem k' (hks2keys k' hk')⟩
  have huntouchedM : ∀ k' ∈ ks2,
      kv.1 ++ "_MASKED" ≠ k' ∧ kv.1 ++ "_MASKED" ≠ k' ++ "_MASKED" := by
    intro k' hk'
    refine ⟨Ne.symm (hnc k' (hks2keys k' hk') kv.1 hkmem), fun hc => ?_⟩
    exact (fun hcc => hknot2 (hcc ▸ hk') : kv.1 ≠ k') (masked_inj hc)
  have hE1k : alGet (ks1.foldl maskStep e) kv.1 = some kv.2 := by
    rw [foldl_maskStep_untouched ks1 e kv.1 huntouched1]
    exact hvk
  refine ⟨fun hs hl => ?_, fun hs hl => ?_, fun hs => ?_⟩
  · have hstep := maskStep_long (ks1.foldl maskStep e) kv.1 kv.2 hs hE1k hl
    constructor
    · rw [hfold,
        foldl_maskStep_untouched ks2 _ (kv.1 ++ "_MASKED") huntouchedM]
      exact hstep.2
    · rw [hfold, foldl_maskStep_untouched ks2 _ kv.1 huntouched2]
      exact hstep.1
  · rw [hfold, foldl_maskStep_untouched ks2 _ kv.1 huntouched2,
      maskStep_noop_short _ kv.1 kv.2 hE1k (by omega)]
    exact hE1k
  · rw [hfold, foldl_maskStep_untouched ks2 _ kv.1 huntouched2,
      maskStep_noop_notsensitive _ kv.1 hs]
    exact hE1k

/-- Witness for `secret_mask` at the spec\u2019s example entry. -/
theorem secret_mask_witness :
    alGet (maskEnv [("ANTHROPIC_API_KEY", "sk-1234567890abcdef")])
        ("ANTHROPIC_API_KEY" ++ "_MASKED") = some "sk-12345...cdef"
    ∧ alGet (maskEnv [("ANTHROPIC_API_KEY", "sk-1234567890abcdef")])
        "ANTHROPIC_API_KEY" = none := by
  have h := (secret_mask [("ANTHROPIC_API_KEY", "sk-1234567890abcdef")]
    (by decide) (by decide)
    ("ANTHROPIC_API_KEY", "sk-1234567890abcdef") (by decide)).1
    (by decide) (by decide)
  refine ⟨?_, h.2⟩
  rw [h.1]
  decide

/-! ## Active-provider environment view (`router.get('/env')`) -/

/-- One iteration of the `/env` loop (route module lines 1101-1109):
sensitive keys are returned under their original key with the abbreviated
value when longer than 12 characters and omitted otherwise; non-sensitive
keys are returned verbatim. -/
def viewStep (acc : List (String × String)) (kv : String × String) :
    List (String × String) :=
  if sensitiveKey kv.1 then
    if 12 < kv.2.data.length then acc ++ [(kv.1, maskVal kv.2)] else acc
  else acc ++ [(kv.1, kv.2)]

/-- The `safeEnv` object built by `router.get('/env')`. -/
def safeEnvView (e : List (String × String)) : List (String × String) :=
  e.foldl viewStep []

/-- The per-entry outcome of one `/env` loop iteration. -/
def viewEntry (kv : String × String) : Option (String × String) :=
  if sensitiveKey kv.1 then
    if 12 < kv.2.data.length then some (kv.1, maskVal kv.2) else none
  else some kv

theorem viewEntry_fst (kv b : String × String) (h : viewEntry kv = some b) :
    b.1 = kv.1 := by
  unfold viewEntry at h
  by_cases hs : sensitiveKey kv.1 = true
  · rw [if_pos hs] at h
    by_cases hl : 12 < kv.2.data.length
    · rw [if_pos hl] at h
      cases h
      rfl
    · rw [if_neg hl] at h
      cases h
  · rw [if_neg hs] at h
    cases h
    rfl

theorem foldl_viewStep_eq (e : List (String × String)) :
    ∀ acc, e.foldl viewStep acc = acc ++ e.filterMap viewEntry := by
  induction e with
  | nil =>
    intro acc
    simp
  | cons kv t ih =>
    intro acc
    rw [List.foldl_cons, ih]
    unfold viewStep viewEntry
    by_cases hs : sensitiveKey kv.1 = true
    · by_cases hl : 12 < kv.2.data.length
      · have hl2 : 12 < kv.2.length := hl
        simp [hs, hl2, List.filterMap_cons, List.append_assoc]
      · have hl2 : ¬ 12 < kv.2.length := hl
        simp [hs, hl2, List.filterMap_cons, List.append_assoc]
    · simp [hs, List.filterMap_cons, List.append_assoc]

theorem safeEnvView_eq_filterMap (e : List (String × String)) :
    safeEnvView e = e.filterMap viewEntry := by
  unfold safeEnvView
  rw [foldl_viewStep_eq e []]
  rfl

theorem alGet_filterMap_viewEntry_not_mem (t : List (String × String))
    (q : String) (h : q ∉ t.map Prod.fst) :
    alGet (t.filterMap viewEntry) q = none := by
  induction t with
  | nil => rfl
  | cons x t' ih =>
    have hq : ¬(x.1 = q) := fun hc => h (hc ▸ List.mem_map_of_mem Prod.fst
      (List.mem_cons_self x t'))
    have hmem : q ∉ t'.map Prod.fst := fun hc => h (by
      simp only [List.map_cons, List.mem_cons]
      exact Or.inr hc)
    rw [List.filterMap_cons]
    cases hv : viewEntry x with
    | none => exact ih hmem
    | some b =>
      unfold alGet
      rw [List.find?_cons]
      rw [show decide (b.1 = q) = false from by
        simp
        rw [viewEntry_fst x b hv]
        exact hq]
      exact ih hmem

/-- C10 (confirmed): in the `/env` view, each sensitive entry keeps its
original key (no `_MASKED` suffix) and is abbreviated when the value is
longer than 12 characters, is omitted entirely when the value has length
≤ 12, and each non-sensitive entry is returned verbatim; every key of the
view is a key of the provider env. -/
theorem env_view (e : List (String × String))
    (hnodup : (e.map Prod.fst).Nodup) :
    (∀ kv ∈ e,
      (sensitiveKey kv.1 = true → 12 < kv.2.data.length →
        alGet (safeEnvView e) kv.1 = some (maskVal kv.2))
      ∧ (sensitiveKey kv.1 = true → kv.2.data.length ≤ 12 →
        alGet (safeEnvView e) kv.1 = none)
      ∧ (sensitiveKey kv.1 = false →
        alGet (safeEnvView e) kv.1 = some kv.2))
    ∧ (∀ q ∈ (safeEnvView e).map Prod.fst, q ∈ e.map Prod.fst) := by
  rw [safeEnvView_eq_filterMap]
  constructor
  · intro kv hkv
    induction e with
    | nil => cases hkv
    | cons x t ih =>
      simp only [List.map_cons, List.nodup_cons] at hnodup
      rcases List.mem_cons.mp hkv with rfl | hmem
      · refine ⟨fun hs hl => ?_, fun hs hl => ?_, fun hs => ?_⟩
        · rw [List.filterMap_cons,
            show viewEntry kv = some (kv.1, maskVal kv.2) from by
              unfold viewEntry
              rw [if_pos hs, if_pos hl]]
          unfold alGet
          rw [List.find?_cons]
          simp
        · rw [List.filterMap_cons,
            show viewEntry kv = none from by
              unfold viewEntry
              rw [if_pos hs, if_neg (by omega)]]
          exact alGet_filterMap_viewEntry_not_mem t kv.1 hnodup.1
        · rw [List.filterMap_cons,
            show viewEntry kv = some kv from by
              unfold viewEntry
              rw [if_neg (by simp [hs])]]
          unfold alGet
          rw [List.find?_cons]
          simp
      · have hne : ¬(x.1 = kv.1) := fun hc =>
          hnodup.1 (hc ▸ List.mem_map_of_mem Prod.fst hmem)
        have ih2 := ih hnodup.2 hmem
        rw [List.filterMap_cons]
        cases hv : viewEntry x with
        | none => exact ih2
        | some b =>
          have hb : alGet (b :: t.filterMap viewEntry) kv.1
              = alGet (t.filterMap viewEntry) kv.1 := by
            unfold alGet
            rw [List.find?_cons]
            rw [show decide (b.1 = kv.1) = false from by
              simp
              rw [viewEntry_fst x b hv]
              exact hne]
          rw [hb]
          exact ih2
  · intro q hq
    rw [List.mem_map] at hq
    obtain ⟨b, hb, hbq⟩ := hq
    rw [List.mem_filterMap] at hb
    obtain ⟨kv, hkv, hkvb⟩ := hb
    rw [← hbq, viewEntry_fst kv b hkvb]
    exact List.mem_map_of_mem Prod.fst hkv

/-- Witness for `env_view`: a long sensitive value is returned abbreviated
under its original key, a short sensitive value is omitted, and a
non-sensitive entry is returned verbatim. -/
theorem env_view_witness :
    alGet (safeEnvView [("ANTHROPIC_API_KEY", "sk-1234567890abcdef"),
        ("API_KEY", "short"), ("FOO", "bar")]) "ANTHROPIC_API_KEY"
      = some "sk-12345...cdef"
    ∧ alGet (safeEnvView [("ANTHROPIC_API_KEY", "sk-1234567890abcdef"),
        ("API_KEY", "short"), ("FOO", "bar")]) "API_KEY" = none := by
  have h := (env_view [("ANTHROPIC_API_KEY", "sk-1234567890abcdef"),
    ("API_KEY", "short"), ("FOO", "bar")] (by decide)).1
  have h1 := (h ("ANTHROPIC_API_KEY", "sk-1234567890abcdef")
    (by decide)).1 (by decide) (by decide)
  have h2 := (h ("API_KEY", "short") (by decide)).2.1 (by decide) (by decide)
  refine ⟨?_, h2⟩
  rw [h1]
  decide

/-! ## SpeedProbe: status mapping and store effects of the probe routes -/

/-- Outcome of the `fetch` call as the route\u2019s try/catch observes it:
a response with an HTTP status code, an `AbortError` thrown by the 10s
timeout, or any other transport error. -/
inductive FetchOutcome where
  | response (code : Nat)
  | aborted
  | failure
  deriving Repr, DecidableEq

/-- Status and recorded HTTP code computed by `POST /speed-test` (route
module lines 809-845): `operational` for a code < 500, `degraded` for a
code ≥ 500, `degraded` on `AbortError`, `failed` on any other error; the
`httpStatus` stays 0 when no response arrived. -/
def speedTestStatus : FetchOutcome → String × Nat
  | FetchOutcome.response c => (if c < 500 then "operational" else "degraded", c)
  | FetchOutcome.aborted => ("degraded", 0)
  | FetchOutcome.failure => ("failed", 0)

/-- Status computed by one iteration of `POST /speed-test/all` (route
module lines 885-911): its catch block does not test for `AbortError`,
so every thrown error — the timeout included — yields `failed`. -/
def speedTestAllStatus : FetchOutcome → String × Nat
  | FetchOutcome.response c => (if c < 500 then "operational" else "degraded", c)
  | _ => ("failed", 0)

/-- A store call made by a probe route after the probe. -/
inductive SpeedStoreOp where
  | save (providerId app : String) (responseTimeMs httpStatus : Nat)
      (status : String)
  | cleanup (keep : Nat)
  deriving Repr, DecidableEq

/-- Whether a store call is the retention trim. -/
def SpeedStoreOp.isCleanup : SpeedStoreOp → Bool
  | SpeedStoreOp.cleanup _ => true
  | _ => false

/-- The store calls of `POST /speed-test` after probing: exactly one
`ccSpeedTestsDb.save` (line 845) and nothing else — in particular no
`ccSpeedTestsDb.cleanup` call. -/
def speedTestRouteStoreOps (providerId app : String) (responseTimeMs : Nat)
    (o : FetchOutcome) : List SpeedStoreOp :=
  [SpeedStoreOp.save providerId app responseTimeMs
    (speedTestStatus o).2 (speedTestStatus o).1]

/-- The store calls of one `POST /speed-test/all` iteration (line 911). -/
def speedTestAllIterStoreOps (providerId app : String) (responseTimeMs : Nat)
    (o : FetchOutcome) : List SpeedStoreOp :=
  [SpeedStoreOp.save providerId app responseTimeMs
    (speedTestAllStatus o).2 (speedTestAllStatus o).1]

/-- C8, refuted as stated: inside the probe-all loop a timeout
(`AbortError`) is recorded as `failed`, not `degraded`; and neither probe
route ever invokes the retention trim after recording. -/
theorem probe_claim_counterexample :
    (speedTestAllStatus FetchOutcome.aborted).1 = "failed"
    ∧ ("failed" : String) ≠ "degraded"
    ∧ (speedTestRouteStoreOps "p" "claude" 100
        FetchOutcome.aborted).all (fun op => ! op.isCleanup) = true
    ∧ (speedTestAllIterStoreOps "p" "claude" 100
        FetchOutcome.aborted).all (fun op => ! op.isCleanup) = true := by
  refine ⟨rfl, by decide, by decide, by decide⟩

/-- C8 (amended): the single probe records `operational` exactly for a
response with code < 500, `degraded` exactly for a code ≥ 500 or a timeout,
and `failed` exactly for other transport failures; an iteration of the
probe-all loop maps a code the same way but records every thrown error —
the timeout included — as `failed`. Each probe records exactly one
SpeedTestResult carrying the measured time, and no retention trim is
invoked by either route. -/
theorem probe_status_mapping (o : FetchOutcome) (pid app : String)
    (rt : Nat) :
    ((speedTestStatus o).1 = "operational" ↔ ∃ c, o = FetchOutcome.response c ∧ c < 500)
    ∧ ((speedTestStatus o).1 = "degraded" ↔
        (∃ c, o = FetchOutcome.response c ∧ 500 ≤ c) ∨ o = FetchOutcome.aborted)
    ∧ ((speedTestStatus o).1 = "failed" ↔ o = FetchOutcome.failure)
    ∧ ((speedTestAllStatus o).1 = "degraded" ↔
        ∃ c, o = FetchOutcome.response c ∧ 500 ≤ c)
    ∧ ((speedTestAllStatus o).1 = "failed" ↔
        o = FetchOutcome.aborted ∨ o = FetchOutcome.failure)
    ∧ (speedTestRouteStoreOps pid app rt o).length = 1
    ∧ (∀ op ∈ speedTestRouteStoreOps pid app rt o, op.isCleanup = false
        ∧ op = SpeedStoreOp.save pid app rt
            (speedTestStatus o).2 (speedTestStatus o).1)
    ∧ (∀ op ∈ speedTestAllIterStoreOps pid app rt o, op.isCleanup = false) := by
  refine ⟨?_, ?_, ?_, ?_, ?_, rfl, ?_, ?_⟩
  · cases o with
    | response c =>
      by_cases hc : c < 500 <;> simp [speedTestStatus, hc]
    | aborted => simp [speedTestStatus]
    | failure => simp [speedTestStatus]
  · cases o with
    | response c =>
      by_cases hc : c < 500
      · simp [speedTestStatus, hc]
      · simp [speedTestStatus, hc]
        omega
    | aborted => simp [speedTestStatus]
    | failure => simp [speedTestStatus]
  · cases o with
    | response c =>
      by_cases hc : c < 500 <;> simp [speedTestStatus, hc]
    | aborted => simp [speedTestStatus]
    | failure => simp [speedTestStatus]
  · cases o with
    | response c =>
      by_cases hc : c < 500
      · simp [speedTestAllStatus, hc]
      · simp [speedTestAllStatus, hc]
        omega
    | aborted => simp [speedTestAllStatus]
    | failure => simp [speedTestAllStatus]
  · cases o with
    | response c =>
      by_cases hc : c < 500 <;> simp [speedTestAllStatus, hc]
    | aborted => simp [speedTestAllStatus]
    | failure => simp [speedTestAllStatus]
  · intro op hop
    rw [speedTestRouteStoreOps, List.mem_singleton] at hop
    exact ⟨hop ▸ rfl, hop⟩
  · intro op hop
    rw [speedTestAllIterStoreOps, List.mem_singleton] at hop
    exact hop ▸ rfl

/-- Witness for `probe_status_mapping` at a concrete outcome. -/
theorem probe_status_mapping_witness :
    (speedTestStatus (FetchOutcome.response 503)).1 = "degraded" :=
  (probe_status_mapping (FetchOutcome.response 503) "p" "claude" 100).2.1.mpr
    (Or.inl ⟨503, rfl, by omega⟩)

/-! ## SpeedTest retention (`ccSpeedTestsDb.cleanup`) -/

/-- A row of the `cc_speed_tests` table, restricted to the columns the
retention query reads: the autoincrement primary key, the provider and the
timestamp. -/
structure SpeedRow where
  rid : Nat
  provider_id : String
  tested_at : Nat
  deriving Repr, DecidableEq

/-- `q` is more recent than `r` in the `ORDER BY tested_at DESC` ranking;
ties in `tested_at` (SQLite leaves their order unspecified) are broken by
the primary key, newer insert first. -/
def moreRecent (r q : SpeedRow) : Prop :=
  r.tested_at < q.tested_at ∨ (r.tested_at = q.tested_at ∧ r.rid < q.rid)

instance (r q : SpeedRow) : Decidable (moreRecent r q) := by
  unfold moreRecent
  infer_instance

/-- `ROW_NUMBER() OVER (PARTITION BY provider_id ORDER BY tested_at DESC)`
of a row within the table. -/
def rankOf (rows : List SpeedRow) (r : SpeedRow) : Nat :=
  (rows.filter (fun q => q.provider_id = r.provider_id ∧ moreRecent r q)).length + 1

/-- `ccSpeedTestsDb.cleanup` (`db.js` lines 749-765), default
`keepCount = 10`: delete every row whose per-provider recency rank exceeds
`keep`. -/
def cleanup (keep : Nat) (rows : List SpeedRow) : List SpeedRow :=
  rows.filter (fun r => rankOf rows r ≤ keep)

/-- Fifteen results for provider `p`, recorded at increasing times. -/
def exRows15 : List SpeedRow :=
  (List.range 15).map (fun i => ⟨i, "p", i⟩)

/-- C9 (confirmed): a row survives `cleanup keep` exactly when fewer than
`keep` rows of its provider are more recent; the operation is idempotent;
and on 15 rows of one provider with `keep = 10`, exactly the 10 most
recent rows (by `tested_at`) remain. -/
theorem retention_cleanup (keep : Nat) (rows : List SpeedRow) :
    (∀ r ∈ rows, (r ∈ cleanup keep rows ↔
      (rows.filter (fun q => q.provider_id = r.provider_id
        ∧ moreRecent r q)).length < keep))
    ∧ cleanup keep (cleanup keep rows) = cleanup keep rows
    ∧ (cleanup 10 exRows15).map SpeedRow.tested_at
        = [5, 6, 7, 8, 9, 10, 11, 12, 13, 14]
    ∧ (cleanup 10 exRows15).length = 10 := by
  refine ⟨?_, ?_, by decide, by decide⟩
  · intro r hr
    unfold cleanup
    rw [List.mem_filter]
    unfold rankOf
    constructor
    · rintro ⟨-, h2⟩
      simp only [decide_eq_true_eq] at h2
      omega
    · intro h
      refine ⟨hr, ?_⟩
      simp only [decide_eq_true_eq]
      omega
  · unfold cleanup
    rw [List.filter_eq_self]
    intro r hr
    rw [List.mem_filter] at hr
    have h2 := hr.2
    simp only [decide_eq_true_eq] at h2
    simp only [decide_eq_true_eq]
    calc rankOf (List.filter (fun r => decide (rankOf rows r ≤ keep)) rows) r
        ≤ rankOf rows r := by
          unfold rankOf
          refine Nat.add_le_add_right ?_ 1
          exact length_filter_filter_le _ _ rows
      _ ≤ keep := h2

/-- Witness for `retention_cleanup`: the most recent of the 15 rows
survives the trim. -/
theorem retention_cleanup_witness :
    (⟨14, "p", 14⟩ : SpeedRow) ∈ cleanup 10 exRows15 :=
  ((retention_cleanup 10 exRows15).1 ⟨14, "p", 14⟩ (by decide)).mpr (by decide)

end CCSwitch
